import Mathlib

/-!
Shallow embedding of the MAT autonomous build loop
(`src/agents/scrum_master.py` and `src/ralph/build_loop.py`).

Python dictionaries coming from the parsed `prd.json` document are modelled
as association lists of `PyVal` values; Python objects (`StoryState`,
`BuildQueue`, `BuildResult`) become Lean structures, and in-place mutation
becomes explicit state passing.  The external collaborators (developer agent,
QA agent, file system, git, logging, progress reporter) are outside the
verified core: the outcome of each `implement_story` call and of each
`save_prd` write is supplied by boolean oracles indexed by a call counter,
and an exception escaping a Python function is an `exc` outcome carrying the
message.  `json.dump` followed by `json.load` is modelled as the identity on
the document.
-/

namespace MAT

/-- Scalar Python values that can appear as fields of a prd.json story.
The `strList` constructor covers the `acceptanceCriteria` list of strings;
`none` is Python `None` (the result of `dict.get` on a missing key). -/
inductive PyVal where
  | none
  | bool (b : Bool)
  | int (n : Int)
  | str (s : String)
  | strList (xs : List String)
deriving DecidableEq, Repr

/-- Python dict with `PyVal` values, as an association list in insertion
order (Python dicts preserve insertion order and have unique keys). -/
def Dict := List (String × PyVal)

instance : DecidableEq Dict := by unfold Dict; infer_instance

/-- Python `d.get(k, dflt)`: the value of the first binding of `k`, or the
default when the key is absent. -/
def dget (d : Dict) (k : String) (dflt : PyVal) : PyVal :=
  match d.find? (fun kv => kv.1 == k) with
  | some kv => kv.2
  | Option.none => dflt

/-- Python `d[k] = v`: replace the value of an existing key in place,
otherwise append the new binding at the end. -/
def dset (d : Dict) (k : String) (v : PyVal) : Dict :=
  match d with
  | [] => [(k, v)]
  | (k0, v0) :: rest => if k0 = k then (k, v) :: rest else (k0, v0) :: dset rest k v

/-- Python membership test `k in d`. -/
def dmem (d : Dict) (k : String) : Bool :=
  (d.find? (fun kv => kv.1 == k)).isSome

/-- Python truthiness of a scalar value (`if passes:`). -/
def truthy : PyVal → Bool
  | .none => false
  | .bool b => b
  | .int n => n != 0
  | .str s => s ≠ ""
  | .strList xs => xs ≠ []

/-- Status of a user story (`StoryStatus` enum in `scrum_master.py`). -/
inductive StoryStatus where
  | pending
  | in_progress
  | blocked
  | completed
  | failed
deriving DecidableEq, Repr

/-- State of a single user story (`StoryState` dataclass).  Fields read
straight out of a Python dict keep the dynamic `PyVal` type; `attempt_count`
is always an int in the source. -/
structure StoryState where
  id : PyVal
  title : PyVal
  description : PyVal
  acceptance_criteria : PyVal
  priority : PyVal
  status : StoryStatus := .pending
  attempt_count : Nat := 0
  failure_reasons : List String := []
  blockers : List String := []
deriving DecidableEq, Repr

/-- `StoryState.from_prd_story`: build a `StoryState` from a prd.json story
dict, seeding `status` from the truthiness of `passes` and defaulting a
missing `priority` to 999. -/
def from_prd_story (story : Dict) : StoryState :=
  let passes := truthy (dget story "passes" (.bool false))
  let status := if passes then StoryStatus.completed else StoryStatus.pending
  { id := dget story "id" (.str "")
    title := dget story "title" (.str "")
    description := dget story "description" (.str "")
    acceptance_criteria := dget story "acceptanceCriteria" (.strList [])
    priority := dget story "priority" (.int 999)
    status := status }

/-- Sort key accepted by Python for the priority sort: ints, with bools
comparing as 0/1 (Python `bool` is an `int` subtype).  Any other type in the
key raises `TypeError` when compared with an int. -/
def priorityKey : PyVal → Option Int
  | .int n => some n
  | .bool b => some (if b then 1 else 0)
  | _ => Option.none

/-- Total version of the key used once every key is known to be numeric. -/
def priorityKeyD (v : PyVal) : Int := (priorityKey v).getD 0

/-- Comparison used for the stable priority sort. -/
def priorityLE (s t : StoryState) : Prop :=
  priorityKeyD s.priority ≤ priorityKeyD t.priority

instance : DecidableRel priorityLE := fun s t => by
  unfold priorityLE; infer_instance

/-- Queue of stories (`BuildQueue` dataclass). -/
structure BuildQueue where
  stories : List StoryState := []
  current_story_index : Int := -1
deriving DecidableEq, Repr

/-- `BuildQueue.load_from_prd`: map each story dict through
`from_prd_story`, then sort stably by priority and clear the cursor.
Python `list.sort` is stable and raises `TypeError` when priority keys of
incomparable types are compared; the model returns `none` when any key is
non-numeric (see `priorityKey`). -/
def load_from_prd (userStories : List Dict) : Option BuildQueue :=
  let stories := userStories.map from_prd_story
  if stories.all (fun s => (priorityKey s.priority).isSome) then
    some { stories := stories.insertionSort priorityLE, current_story_index := -1 }
  else
    Option.none

/-- `BuildQueue.get_next_story`: scan for the first `Pending` story; set the
cursor to its index and return it.  Selection itself does not change the
story. -/
def get_next_story (q : BuildQueue) : BuildQueue × Option StoryState :=
  match q.stories.find? (fun s => s.status = .pending) with
  | some s =>
      ({ q with current_story_index :=
           ((q.stories.findIdx (fun s => s.status = .pending) : Nat) : Int) }, some s)
  | Option.none => (q, Option.none)

/-- Apply `f` to the first element satisfying `p`, leaving the rest
unchanged (the `for ... if ...: mutate; return` idiom used by the
`mark_story_*` and `retry_story` methods). -/
def updateFirst (p : StoryState → Bool) (f : StoryState → StoryState) :
    List StoryState → List StoryState
  | [] => []
  | s :: rest => if p s then f s :: rest else s :: updateFirst p f rest

/-- Scan for the first `Pending` story and replace it in place by its
`InProgress` version with `attempt_count` bumped, returning its index, the
updated list and the mutated story. -/
def select_pending : List StoryState → Option (Nat × List StoryState × StoryState)
  | [] => Option.none
  | s :: rest =>
      if s.status = .pending then
        let s1 := { s with status := StoryStatus.in_progress,
                           attempt_count := s.attempt_count + 1 }
        some (0, s1 :: rest, s1)
      else
        match select_pending rest with
        | some (i, rest1, t) => some (i + 1, s :: rest1, t)
        | Option.none => Option.none

/-- `ScrumMasterAgent.get_next_story`: select the next pending story and, if
one exists, mark it `InProgress` and bump its `attempt_count`.  Python
mutates the selected object in place, so the queue holds the mutated story
at the selected index (and the cursor points at it). -/
def scrum_get_next_story (q : BuildQueue) : BuildQueue × Option StoryState :=
  match select_pending q.stories with
  | some (i, stories1, s1) =>
      ({ stories := stories1, current_story_index := (i : Int) }, some s1)
  | Option.none => (q, Option.none)

/-- `ScrumMasterAgent.mark_story_completed`: first story with the given id
becomes `Completed` and its blockers are cleared. -/
def mark_story_completed (sid : PyVal) (l : List StoryState) : List StoryState :=
  updateFirst (fun s => s.id == sid)
    (fun s => { s with status := StoryStatus.completed, blockers := [] }) l

/-- `ScrumMasterAgent.mark_story_failed`: first story with the given id
becomes `Failed` and the reason is appended. -/
def mark_story_failed (sid : PyVal) (reason : String) (l : List StoryState) :
    List StoryState :=
  updateFirst (fun s => s.id == sid)
    (fun s => { s with status := StoryStatus.failed,
                       failure_reasons := s.failure_reasons ++ [reason] }) l

/-- `ScrumMasterAgent.mark_story_blocked`: first story with the given id
becomes `Blocked` and the blocker is appended. -/
def mark_story_blocked (sid : PyVal) (blocker : String) (l : List StoryState) :
    List StoryState :=
  updateFirst (fun s => s.id == sid)
    (fun s => { s with status := StoryStatus.blocked,
                       blockers := s.blockers ++ [blocker] }) l

/-- `ScrumMasterAgent.retry_story`: reset the first story that has the given
id AND is `Failed`/`Blocked` back to `Pending` (a story with a matching id
but another status is skipped and the scan continues). -/
def retry_story (sid : PyVal) (l : List StoryState) : List StoryState × Bool :=
  match l with
  | [] => ([], false)
  | s :: rest =>
      if s.id == sid ∧ (s.status = .failed ∨ s.status = .blocked) then
        ({ s with status := StoryStatus.pending } :: rest, true)
      else
        let (rest1, b) := retry_story sid rest
        (s :: rest1, b)

/-- `ScrumMasterAgent.should_continue_build`: return true on the first
`Pending` story, or on the first `Failed`/`Blocked` story with
`attempt_count < max_retries` — which is reset to `Pending` as a side
effect; return false when neither exists. -/
def should_continue_build (mr : Nat) : List StoryState → List StoryState × Bool
  | [] => ([], false)
  | s :: rest =>
      if s.status = .pending then (s :: rest, true)
      else if (s.status = .failed ∨ s.status = .blocked) ∧ s.attempt_count < mr then
        ({ s with status := StoryStatus.pending } :: rest, true)
      else
        let (rest1, b) := should_continue_build mr rest
        (s :: rest1, b)

instance : Repr Dict := inferInstanceAs (Repr (List (String × PyVal)))

/-- Python `str` of a scalar value, used only inside log/error messages. -/
def pyStr : PyVal → String
  | .none => "None"
  | .bool b => if b then "True" else "False"
  | .int n => toString n
  | .str s => s
  | .strList xs => toString xs

/-- Result of a build loop execution (`BuildResult` dataclass in
`build_loop.py`). -/
structure BuildResult where
  success : Bool
  total_stories : Nat
  completed_stories : Nat
  failed_stories : Nat
  failed_story_ids : List PyVal := []
  errors : List String := []
deriving DecidableEq, Repr

/-- Parsed prd.json document: the `userStories` list (validated by
`load_prd` to be present and a list) plus the remaining top-level scalar
fields such as `project`. -/
structure PrdDoc where
  userStories : List Dict
  others : Dict := []
deriving DecidableEq, Repr

/-- Environment of a run.  The developer/QA agents and the file system are
external collaborators: `impl n` is the outcome of the n-th
`implement_story` call (implementation plus verification of one attempt),
and `saveOk n` tells whether the n-th `save_prd` write succeeds or raises. -/
structure RunCfg where
  mr : Nat
  impl : Nat → Bool
  saveOk : Nat → Bool

/-- `BuildLoop.implement_story`: one implement+verify cycle.  The concrete
developer/QA work is external; its outcome comes from the `impl` oracle and
the call counter advances by one.  Written files and failure-reason text do
not influence control flow and are abstracted. -/
def implement_story (cfg : RunCfg) (ctr : Nat) : Bool × Nat :=
  (cfg.impl ctr, ctr + 1)

/-- Attempt loop of `run_story_with_retries`: `for attempt in
range(1, max_retries + 1)`, stopping at the first successful cycle. -/
def run_story_attempts (cfg : RunCfg) : Nat → Nat → Bool × Nat
  | 0, ctr => (false, ctr)
  | k + 1, ctr =>
      match implement_story cfg ctr with
      | (true, ctr1) => (true, ctr1)
      | (false, ctr1) => run_story_attempts cfg k ctr1

/-- `BuildLoop.run_story_with_retries`: up to `max_retries` implement+verify
cycles; the number of cycles consumed is the difference of the counters. -/
def run_story_with_retries (cfg : RunCfg) (ctr : Nat) : Bool × Nat :=
  run_story_attempts cfg cfg.mr ctr

/-- Lookup of the selected story's dict in `_prd_data["userStories"]`
(`s.get("id") == story_id` with Python's `None` default). -/
def find_story_data (userStories : List Dict) (sid : PyVal) : Option Dict :=
  userStories.find? (fun sd => dget sd "id" PyVal.none == sid)

/-- Story-list part of `BuildLoop.mark_story_passed`: set `passes = True` on
the first story whose `id` matches, leaving everything else unchanged. -/
def set_passes_first (sid : PyVal) : List Dict → List Dict
  | [] => []
  | sd :: rest =>
      if dget sd "id" PyVal.none == sid then dset sd "passes" (.bool true) :: rest
      else sd :: set_passes_first sid rest

/-- `BuildLoop.mark_story_passed` without the trailing `save_prd` call:
update the in-memory document. -/
def mark_story_passed (doc : PrdDoc) (sid : PyVal) : PrdDoc :=
  { doc with userStories := set_passes_first sid doc.userStories }

/-- Mutable state of one `BuildLoop.run` invocation: the scrum master's
queue, the in-memory prd document, the local counters and lists of `run`,
the oracle call counters, and a trace of the ids selected so far (ghost
field recording each `get_next_story` selection). -/
structure RunState where
  queue : BuildQueue
  prd : PrdDoc
  completed : Nat
  failedIds : List PyVal
  errors : List String
  implCtr : Nat
  saveCtr : Nat
  trace : List PyVal
deriving DecidableEq, Repr

/-- Outcome of one iteration of the `while True` loop in `BuildLoop.run`:
`brk` leaves the loop, `next` continues it, `exc` is an exception escaping
the iteration (a failed `save_prd` write). -/
inductive IterOut where
  | brk (st : RunState)
  | next (st : RunState)
  | exc (e : String) (st : RunState)
deriving DecidableEq, Repr

/-- Tail of the loop body: `if not self.should_continue(): break`, with the
pending-reset side effect of `should_continue_build` applied to the
queue. -/
def check_continue (cfg : RunCfg) (st : RunState) : IterOut :=
  match should_continue_build cfg.mr st.queue.stories with
  | (stories1, b) =>
      if b then IterOut.next { st with queue := { st.queue with stories := stories1 } }
      else IterOut.brk { st with queue := { st.queue with stories := stories1 } }

/-- One iteration of the `while True` loop in `BuildLoop.run` (lines
326–387): select the next story, look up its prd dict, run the per-story
retry subroutine, record success or failure, then re-evaluate
should-continue.  The save oracle decides whether the write-through
`save_prd` raises. -/
def loopIter (cfg : RunCfg) (st : RunState) : IterOut :=
  match scrum_get_next_story st.queue with
  | (q1, Option.none) => IterOut.brk { st with queue := q1 }
  | (q1, some story) =>
      let st0 := { st with queue := q1, trace := st.trace ++ [story.id] }
      if story.status = .failed ∧ cfg.mr ≤ story.attempt_count then
        IterOut.next st0
      else
        match find_story_data st0.prd.userStories story.id with
        | Option.none =>
            IterOut.next { st0 with
              queue := { st0.queue with
                stories := mark_story_failed story.id "Story not found in PRD"
                  st0.queue.stories },
              failedIds := st0.failedIds ++ [story.id] }
        | some _ =>
            match run_story_with_retries cfg st0.implCtr with
            | (true, implCtr1) =>
                let prd1 := mark_story_passed st0.prd story.id
                if cfg.saveOk st0.saveCtr then
                  check_continue cfg { st0 with
                    prd := prd1, saveCtr := st0.saveCtr + 1, implCtr := implCtr1,
                    queue := { st0.queue with
                      stories := mark_story_completed story.id st0.queue.stories },
                    completed := st0.completed + 1 }
                else
                  IterOut.exc "save_prd failed"
                    { st0 with prd := prd1, saveCtr := st0.saveCtr + 1,
                               implCtr := implCtr1 }
            | (false, implCtr1) =>
                let reason := "Failed after " ++ toString cfg.mr ++ " attempts"
                check_continue cfg { st0 with
                  implCtr := implCtr1,
                  queue := { st0.queue with
                    stories := mark_story_failed story.id reason st0.queue.stories },
                  failedIds := st0.failedIds ++ [story.id],
                  errors := st0.errors ++ [pyStr story.id ++ ": " ++ reason] }

/-- Outcome of the whole loop: normal exit, out of fuel (the model's bound
on iterations), or an escaped exception. -/
inductive RunOut where
  | done (st : RunState)
  | fuelOut (st : RunState)
  | exc (e : String) (st : RunState)
deriving DecidableEq, Repr

/-- Iterate `loopIter` until the loop breaks, an exception escapes, or the
fuel runs out. -/
def runLoop (cfg : RunCfg) : Nat → RunState → RunOut
  | 0, st => RunOut.fuelOut st
  | fuel + 1, st =>
      match loopIter cfg st with
      | IterOut.brk st1 => RunOut.done st1
      | IterOut.exc e st1 => RunOut.exc e st1
      | IterOut.next st1 => runLoop cfg fuel st1

/-- Count of stories whose `passes` field is truthy (`already_passed`). -/
def count_passes (userStories : List Dict) : Nat :=
  (userStories.filter (fun sd => truthy (dget sd "passes" (.bool false)))).length

/-- State of `BuildLoop.run` just before the `while True` loop, given the
loaded document and the queue produced by `load_stories`. -/
def init_state (doc : PrdDoc) (q : BuildQueue) : RunState :=
  { queue := q, prd := doc, completed := count_passes doc.userStories,
    failedIds := [], errors := [], implCtr := 0, saveCtr := 0, trace := [] }

/-- Lines 392–403 of `build_loop.py`: assemble the final `BuildResult`. -/
def mk_result (total : Nat) (st : RunState) : BuildResult :=
  { success := st.failedIds.length == 0 && st.completed == total,
    total_stories := total,
    completed_stories := st.completed,
    failed_stories := st.failedIds.length,
    failed_story_ids := st.failedIds,
    errors := st.errors }

/-- `BuildLoop.run`: a `PRDLoadError` (the `Except.error` input) is caught
and turned into a zero-progress result; loading the queue raises
`TypeError` when priorities cannot be compared; otherwise the loop runs and
an exception escaping it (failed persistence write) escapes `run` as well.
The `fuel` bound is a model artefact; `Option.none` marks exhaustion. -/
def run (cfg : RunCfg) (loadRes : Except String PrdDoc) (fuel : Nat) :
    Except String (Option BuildResult) :=
  match loadRes with
  | .error e =>
      .ok (some { success := false, total_stories := 0, completed_stories := 0,
                  failed_stories := 0, errors := [e] })
  | .ok doc =>
      match load_from_prd doc.userStories with
      | Option.none => .error "TypeError: unsupported priority comparison"
      | some q =>
          match runLoop cfg fuel (init_state doc q) with
          | RunOut.done st => .ok (some (mk_result doc.userStories.length st))
          | RunOut.fuelOut _ => .ok Option.none
          | RunOut.exc e _ => .error e

/-! Concrete fixtures used by witnesses and counterexamples. -/

/-- Fixture: a pending story with id `"a"` and priority 1. -/
def storyA : StoryState :=
  { id := .str "a", title := .str "", description := .str "",
    acceptance_criteria := .strList [], priority := .int 1 }

/-- Fixture: `storyA` as selected by `get_next_story` (in progress, first
attempt). -/
def storyA_sel : StoryState :=
  { storyA with status := StoryStatus.in_progress, attempt_count := 1 }

/-- Fixture: a story that failed its first selection cycle. -/
def storyA_fail1 : StoryState :=
  { storyA with status := StoryStatus.failed, attempt_count := 1,
                failure_reasons := ["Failed after 3 attempts"] }

/-- Fixture: an exhausted failed story (`attempt_count = max_retries = 3`). -/
def storyA_exhausted : StoryState :=
  { storyA with status := StoryStatus.failed, attempt_count := 3 }

/-- Fixture: a pending story with id `"b"` and priority 2. -/
def storyB : StoryState :=
  { id := .str "b", title := .str "", description := .str "",
    acceptance_criteria := .strList [], priority := .int 2 }

/-- Fixture prd story dict with id `"a"`. -/
def dictA : Dict := [("id", .str "a"), ("priority", .int 1)]

/-- Fixture prd story dict with id `"b"`. -/
def dictB : Dict := [("id", .str "b"), ("priority", .int 2)]

/-- Fixture document with the single story `"a"`. -/
def docOne : PrdDoc := { userStories := [dictA], others := [("project", .str "P")] }

/-- Fixture: the queue produced by loading `docOne`. -/
def qOne : BuildQueue := { stories := [storyA], current_story_index := -1 }

/-- Fixture document with the two stories `"a"` and `"b"`. -/
def docAB : PrdDoc := { userStories := [dictA, dictB], others := [] }

/-- Fixture mid-run state: story `"a"` already failed with its retry budget
exhausted (and already selected three times), story `"b"` still pending. -/
def stExh : RunState :=
  { queue := { stories := [storyA_exhausted, storyB], current_story_index := 0 },
    prd := docAB, completed := 0,
    failedIds := [.str "a", .str "a", .str "a"],
    errors := [], implCtr := 9, saveCtr := 0,
    trace := [.str "a", .str "a", .str "a"] }

/-- Configuration whose implement+verify cycles always fail. -/
def cfgAlwaysFail : RunCfg :=
  { mr := 3, impl := fun _ => false, saveOk := fun _ => true }

/-- Configuration whose cycles fail until the fourth one (index 3). -/
def cfgLateSuccess : RunCfg :=
  { mr := 3, impl := fun n => decide (3 ≤ n), saveOk := fun _ => true }

/-- Configuration whose cycles always succeed but whose persistence writes
always fail. -/
def cfgSaveFails : RunCfg :=
  { mr := 3, impl := fun _ => true, saveOk := fun _ => false }

/-- Configuration whose cycles and persistence writes always succeed. -/
def cfgAllGood : RunCfg :=
  { mr := 3, impl := fun _ => true, saveOk := fun _ => true }

/-- Relation stating that a story which was `Failed` or `Blocked` has not
been put back to `Pending`. -/
def noImplicitUnfail (s t : StoryState) : Prop :=
  s.status = .failed ∨ s.status = .blocked → t.status ≠ .pending

/-- State carried by an iteration outcome. -/
def stateOfIter : IterOut → RunState
  | .brk st => st
  | .next st => st
  | .exc _ st => st

/-- State carried by a loop outcome. -/
def stateOfRun : RunOut → RunState
  | .done st => st
  | .fuelOut st => st
  | .exc _ st => st

/-- Exception message of a loop outcome, when one escaped. -/
def excOf : RunOut → Option String
  | .exc e _ => some e
  | _ => Option.none

/-- Whether the loop ran out of fuel (the model's iteration budget) instead
of terminating by itself. -/
def isFuelOut : RunOut → Bool
  | .fuelOut _ => true
  | _ => false

/-- Number of stories currently marked `Completed`. -/
def countCompleted (l : List StoryState) : Nat :=
  (l.filter (fun s => s.status = .completed)).length

/-- Ids of the stories of a queue, in order. -/
def storyIds (l : List StoryState) : List PyVal := l.map (fun s => s.id)

/-- Every story carrying this id is `Failed` with its retry budget
exhausted. -/
def exhaustedFailed (mr : Nat) (sid : PyVal) (l : List StoryState) : Prop :=
  ∀ t ∈ l, t.id = sid → t.status = .failed ∧ mr ≤ t.attempt_count

/-- Every pending story still has retry budget left; this holds on entry to
the run loop (all attempt counts are 0) and is preserved by it. -/
def attemptInv (mr : Nat) (l : List StoryState) : Prop :=
  ∀ s ∈ l, s.status = .pending → s.attempt_count < mr

/-- Total remaining retry budget of a story list. -/
def attSum (mr : Nat) (l : List StoryState) : Nat :=
  (l.map (fun s => mr - s.attempt_count)).sum

/-- Termination measure of the run loop: total remaining retry budget. -/
def loopMeasure (mr : Nat) (st : RunState) : Nat :=
  attSum mr st.queue.stories

/-- Run-loop invariant tying the loop counters to the queue: the completed
counter equals the number of `Completed` stories, story ids are pairwise
distinct, and the queue length matches the story count. -/
def runInv (total : Nat) (st : RunState) : Prop :=
  st.completed = countCompleted st.queue.stories ∧
  (storyIds st.queue.stories).Nodup ∧
  st.queue.stories.length = total

/-!  Helper lemmas about the queue operations. -/

/-- Positional description of `updateFirst`: every story is either unchanged
or is the image under `f` of a story satisfying `p`. -/
theorem forall₂_updateFirst (p : StoryState → Bool) (f : StoryState → StoryState) :
    ∀ l : List StoryState,
      List.Forall₂ (fun s t => t = s ∨ (t = f s ∧ p s)) l (updateFirst p f l)
  | [] => List.Forall₂.nil
  | s :: rest => by
      by_cases hp : p s = true
      · rw [updateFirst, if_pos hp]
        exact List.Forall₂.cons (Or.inr ⟨rfl, hp⟩)
          (List.forall₂_same.mpr (fun t _ => Or.inl rfl))
      · rw [updateFirst, if_neg hp]
        exact List.Forall₂.cons (Or.inl rfl) (forall₂_updateFirst p f rest)

/-- Positional description of `select_pending` on success: every story is
unchanged except the selected one, which was `Pending` and becomes its
`InProgress` bumped version. -/
theorem forall₂_select_pending :
    ∀ (l : List StoryState) (i : Nat) (l1 : List StoryState) (s1 : StoryState),
      select_pending l = some (i, l1, s1) →
      List.Forall₂ (fun s t => t = s ∨
        (s.status = .pending ∧
         t = { s with status := StoryStatus.in_progress,
                      attempt_count := s.attempt_count + 1 })) l l1
  | [], _, _, _, h => by simp [select_pending] at h
  | s :: rest, i, l1, s1, h => by
      by_cases hp : s.status = .pending
      · simp only [select_pending, if_pos hp, Option.some.injEq, Prod.mk.injEq] at h
        obtain ⟨-, hl, -⟩ := h
        subst hl
        exact List.Forall₂.cons (Or.inr ⟨hp, rfl⟩)
          (List.forall₂_same.mpr (fun t _ => Or.inl rfl))
      · cases hrec : select_pending rest with
        | none =>
            rw [select_pending, if_neg hp, hrec] at h
            exact absurd h (by simp)
        | some v =>
            obtain ⟨j, rest1, t1⟩ := v
            rw [select_pending, if_neg hp, hrec] at h
            simp only [Option.some.injEq, Prod.mk.injEq] at h
            obtain ⟨-, hl, -⟩ := h
            subst hl
            exact List.Forall₂.cons (Or.inl rfl)
              (forall₂_select_pending rest j rest1 t1 hrec)

/-- Positional description of the should-continue scan: every story is
unchanged except possibly one `Failed`/`Blocked` story with
`attempt_count < max_retries`, which is reset to `Pending`. -/
theorem forall₂_should_continue (mr : Nat) :
    ∀ l : List StoryState,
      List.Forall₂ (fun s t => t = s ∨
        (t = { s with status := StoryStatus.pending } ∧
         (s.status = .failed ∨ s.status = .blocked) ∧ s.attempt_count < mr))
        l (should_continue_build mr l).1
  | [] => List.Forall₂.nil
  | s :: rest => by
      unfold should_continue_build
      by_cases hp : s.status = .pending
      · simp only [if_pos hp]
        exact List.Forall₂.cons (Or.inl rfl)
          (List.forall₂_same.mpr (fun t _ => Or.inl rfl))
      · simp only [if_neg hp]
        by_cases hr : (s.status = .failed ∨ s.status = .blocked) ∧ s.attempt_count < mr
        · simp only [if_pos hr]
          exact List.Forall₂.cons (Or.inr ⟨rfl, hr⟩)
            (List.forall₂_same.mpr (fun t _ => Or.inl rfl))
        · simp only [if_neg hr]
          exact List.Forall₂.cons (Or.inl rfl) (forall₂_should_continue mr rest)

/-! Claim C1. -/

/-- C1 counterexample: the should-continue check itself implicitly resets a
`Failed` story (here with `attempt_count = 0 < max_retries = 3`) back to
`Pending`, without any call to `retry_story`. -/
theorem C1_counterexample_should_continue_resets :
    ({ storyA with status := StoryStatus.failed } : StoryState).status = .failed ∧
    ((should_continue_build 3 [{ storyA with status := StoryStatus.failed }]).1.map
        (fun s => s.status)) = [StoryStatus.pending] ∧
    (should_continue_build 3 [{ storyA with status := StoryStatus.failed }]).2 = true := by
  decide

/-- C1 (amended): a `Failed`/`Blocked` story is put back to `Pending` only
by the explicit retry operation or by the should-continue check; selection
(`select_pending`, the effectful part of `get_next_story`) and the three
mark operations never do it, and the should-continue check resets only a
story with `attempt_count < max_retries`. -/
theorem C1_no_implicit_return_to_pending
    (mr : Nat) (sid : PyVal) (reason blocker : String) (l : List StoryState) :
    List.Forall₂ noImplicitUnfail l (mark_story_completed sid l) ∧
    List.Forall₂ noImplicitUnfail l (mark_story_failed sid reason l) ∧
    List.Forall₂ noImplicitUnfail l (mark_story_blocked sid blocker l) ∧
    (∀ i l1 s1, select_pending l = some (i, l1, s1) →
      List.Forall₂ noImplicitUnfail l l1) ∧
    List.Forall₂ (fun s t => t.status = .pending →
        s.status = .pending ∨
        ((s.status = .failed ∨ s.status = .blocked) ∧ s.attempt_count < mr))
      l (should_continue_build mr l).1 := by
  refine ⟨?_, ?_, ?_, ?_, ?_⟩
  · exact (forall₂_updateFirst _ _ l).imp (fun s t h => by
      rcases h with rfl | ⟨rfl, -⟩
      · intro hs; rcases hs with h | h <;> simp [h]
      · intro _; simp [noImplicitUnfail])
  · exact (forall₂_updateFirst _ _ l).imp (fun s t h => by
      rcases h with rfl | ⟨rfl, -⟩
      · intro hs; rcases hs with h | h <;> simp [h]
      · intro _; simp [noImplicitUnfail])
  · exact (forall₂_updateFirst _ _ l).imp (fun s t h => by
      rcases h with rfl | ⟨rfl, -⟩
      · intro hs; rcases hs with h | h <;> simp [h]
      · intro _; simp [noImplicitUnfail])
  · intro i l1 s1 hsel
    exact (forall₂_select_pending l i l1 s1 hsel).imp (fun s t h => by
      rcases h with rfl | ⟨hp, rfl⟩
      · intro hs; rcases hs with h | h <;> simp [h]
      · intro hs; rcases hs with h | h <;> rw [hp] at h <;> exact absurd h (by simp))
  · exact (forall₂_should_continue mr l).imp (fun s t h => by
      rcases h with rfl | ⟨rfl, hcond⟩
      · exact fun hp => Or.inl hp
      · exact fun _ => Or.inr hcond)

/-- C1 witness: the amended statement applied to a singleton queue holding a
pending story, discharging the `select_pending` hypothesis concretely. -/
theorem C1_witness : List.Forall₂ noImplicitUnfail [storyA] [storyA_sel] :=
  (C1_no_implicit_return_to_pending 3 (.str "a") "r" "b" [storyA]).2.2.2.1
    0 [storyA_sel] storyA_sel (by decide)

/-! Claim C5. -/

/-- Behaviour of the attempt loop when every cycle in range fails: all `m`
cycles are consumed and the subroutine reports failure. -/
theorem run_story_attempts_all_fail (cfg : RunCfg) :
    ∀ (m ctr : Nat), (∀ j < m, cfg.impl (ctr + j) = false) →
      run_story_attempts cfg m ctr = (false, ctr + m) := by
  intro m
  induction m with
  | zero => intro ctr _; rfl
  | succ m ih =>
      intro ctr h
      have h0 : cfg.impl ctr = false := by simpa using h 0 (Nat.succ_pos m)
      have hrest : ∀ j < m, cfg.impl (ctr + 1 + j) = false := by
        intro j hj
        have := h (j + 1) (Nat.succ_lt_succ hj)
        simpa [Nat.add_assoc, Nat.add_comm 1 j] using this
      have hrec := ih (ctr + 1) hrest
      simp [run_story_attempts, implement_story, h0, hrec, Nat.add_assoc,
        Nat.add_comm 1 m]

/-- Behaviour of the attempt loop when the cycle at 0-based offset `i < m`
is the first success: exactly `i + 1` cycles are consumed. -/
theorem run_story_attempts_first_success (cfg : RunCfg) :
    ∀ (m ctr i : Nat), i < m → (∀ j < i, cfg.impl (ctr + j) = false) →
      cfg.impl (ctr + i) = true →
      run_story_attempts cfg m ctr = (true, ctr + i + 1) := by
  intro m
  induction m with
  | zero => intro ctr i hi _ _; exact absurd hi (Nat.not_lt_zero i)
  | succ m ih =>
      intro ctr i hi hf hs
      cases i with
      | zero =>
          simp only [Nat.add_zero] at hs
          simp [run_story_attempts, implement_story, hs]
      | succ i =>
          have h0 : cfg.impl ctr = false := by simpa using hf 0 (Nat.succ_pos i)
          have hrest : ∀ j < i, cfg.impl (ctr + 1 + j) = false := by
            intro j hj
            have := hf (j + 1) (Nat.succ_lt_succ hj)
            simpa [Nat.add_assoc, Nat.add_comm 1 j] using this
          have hs1 : cfg.impl (ctr + 1 + i) = true := by
            simpa [Nat.add_assoc, Nat.add_comm 1 i] using hs
          have hrec := ih (ctr + 1) i (Nat.lt_of_succ_lt_succ hi) hrest hs1
          simp [run_story_attempts, implement_story, h0, hrec, Nat.add_assoc,
            Nat.add_comm 1 i]

/-- C5: `run_story_with_retries` makes exactly `min(k, max_retries)`
implement+verify attempts.  When every attempt in the bound fails it makes
exactly `max_retries` attempts and fails; when the k-th attempt (1-based,
`k ≤ max_retries`) is the first to succeed it makes exactly `k` attempts —
the counter advances by exactly that many cycles and no further cycle is
invoked. -/
theorem C5_retry_bound_and_early_success (cfg : RunCfg) (ctr : Nat) :
    ((∀ j < cfg.mr, cfg.impl (ctr + j) = false) →
      run_story_with_retries cfg ctr = (false, ctr + cfg.mr)) ∧
    (∀ k, 1 ≤ k → k ≤ cfg.mr →
      (∀ j < k - 1, cfg.impl (ctr + j) = false) →
      cfg.impl (ctr + (k - 1)) = true →
      run_story_with_retries cfg ctr = (true, ctr + k)) := by
  constructor
  · intro h
    exact run_story_attempts_all_fail cfg cfg.mr ctr h
  · intro k hk1 hkmr hf hs
    have : run_story_attempts cfg cfg.mr ctr = (true, ctr + (k - 1) + 1) :=
      run_story_attempts_first_success cfg cfg.mr ctr (k - 1)
        (Nat.lt_of_lt_of_le (Nat.sub_lt hk1 Nat.one_pos) hkmr) hf hs
    rw [run_story_with_retries, this, Nat.add_assoc, Nat.sub_add_cancel hk1]

/-- C5 witness: with always-failing cycles exactly 3 of 3 attempts are
made; with a first success at attempt 1 exactly one attempt is made. -/
theorem C5_witness :
    run_story_with_retries cfgAlwaysFail 0 = (false, 0 + 3) ∧
    run_story_with_retries cfgLateSuccess 3 = (true, 3 + 1) :=
  ⟨(C5_retry_bound_and_early_success cfgAlwaysFail 0).1 (by decide),
   (C5_retry_bound_and_early_success cfgLateSuccess 3).2 1 (by decide) (by decide)
     (by decide) (by decide)⟩

/-! Claim C7. -/

instance : IsTotal StoryState priorityLE :=
  ⟨fun a b => Int.le_total (priorityKeyD a.priority) (priorityKeyD b.priority)⟩

instance : IsTrans StoryState priorityLE :=
  ⟨fun _ _ _ hab hbc => le_trans hab hbc⟩

/-- Inserting a story whose key equals `p` puts it in front of every story
of key `p` already present (stability of one insertion step). -/
theorem orderedInsert_filter_eq (a : StoryState) (p : Int)
    (ha : priorityKeyD a.priority = p) :
    ∀ l : List StoryState,
      (l.orderedInsert priorityLE a).filter (fun s => priorityKeyD s.priority == p)
        = a :: l.filter (fun s => priorityKeyD s.priority == p)
  | [] => by simp [List.orderedInsert, List.filter_cons, ha]
  | b :: l => by
      by_cases hab : priorityLE a b
      · rw [List.orderedInsert, if_pos hab]
        simp [List.filter_cons, ha]
      · rw [List.orderedInsert, if_neg hab]
        have hb : priorityKeyD b.priority ≠ p := by
          unfold priorityLE at hab
          rw [ha] at hab
          omega
        simp [List.filter_cons, hb, orderedInsert_filter_eq a p ha l]

/-- Inserting a story whose key differs from `p` leaves the key-`p` stories
untouched. -/
theorem orderedInsert_filter_ne (a : StoryState) (p : Int)
    (ha : priorityKeyD a.priority ≠ p) :
    ∀ l : List StoryState,
      (l.orderedInsert priorityLE a).filter (fun s => priorityKeyD s.priority == p)
        = l.filter (fun s => priorityKeyD s.priority == p)
  | [] => by simp [List.orderedInsert, List.filter_cons, ha]
  | b :: l => by
      by_cases hab : priorityLE a b
      · rw [List.orderedInsert, if_pos hab]
        simp [List.filter_cons, ha]
      · rw [List.orderedInsert, if_neg hab]
        simp [List.filter_cons, orderedInsert_filter_ne a p ha l]

/-- Stability of the priority sort: the sublist of stories having any fixed
key is unchanged by sorting. -/
theorem insertionSort_filter_stable (p : Int) :
    ∀ l : List StoryState,
      (l.insertionSort priorityLE).filter (fun s => priorityKeyD s.priority == p)
        = l.filter (fun s => priorityKeyD s.priority == p)
  | [] => rfl
  | a :: l => by
      rw [List.insertionSort]
      by_cases ha : priorityKeyD a.priority = p
      · rw [orderedInsert_filter_eq a p ha (l.insertionSort priorityLE),
            insertionSort_filter_stable p l]
        simp [List.filter_cons, ha]
      · rw [orderedInsert_filter_ne a p ha (l.insertionSort priorityLE),
            insertionSort_filter_stable p l]
        simp [List.filter_cons, ha]

/-- First pending story of a priority-sorted list with pairwise-distinct
keys: it is pending, a member, and of strictly smallest key among pending
stories. -/
theorem find?_pending_minimal :
    ∀ l : List StoryState, l.Sorted priorityLE →
      (l.map (fun s => priorityKeyD s.priority)).Nodup →
      ∀ s, l.find? (fun t => t.status = .pending) = some s →
        s.status = .pending ∧ s ∈ l ∧
        ∀ t ∈ l, t.status = .pending →
          t = s ∨ priorityKeyD s.priority < priorityKeyD t.priority := by
  intro l
  induction l with
  | nil => intro _ _ s hs; simp [List.find?] at hs
  | cons a rest ih =>
      intro hsort hnodup s hs
      rw [List.sorted_cons] at hsort
      rw [List.map_cons, List.nodup_cons] at hnodup
      by_cases hp : a.status = .pending
      · rw [List.find?_cons_of_pos _ (by simp [hp])] at hs
        obtain rfl : a = s := by simpa using hs
        refine ⟨hp, List.mem_cons_self a rest, ?_⟩
        intro t ht htp
        rcases List.mem_cons.mp ht with rfl | ht
        · exact Or.inl rfl
        · refine Or.inr (lt_of_le_of_ne (hsort.1 t ht) ?_)
          intro hkey
          exact hnodup.1 (hkey ▸ List.mem_map_of_mem (fun s => priorityKeyD s.priority) ht)
      · rw [List.find?_cons_of_neg _ (by simp [hp])] at hs
        obtain ⟨hsp, hsm, hmin⟩ := ih hsort.2 hnodup.2 s hs
        refine ⟨hsp, List.mem_cons_of_mem a hsm, ?_⟩
        intro t ht htp
        rcases List.mem_cons.mp ht with rfl | ht
        · exact absurd htp hp
        · exact hmin t ht htp

/-- C7: for a queue produced by `load_from_prd`, stories of equal priority
keep their original relative order (stable sort), and when all priorities
are distinct the next-pending selection returns a pending story of strictly
smallest priority among the pending ones. -/
theorem C7_next_pending_order (userStories : List Dict) (q : BuildQueue)
    (hload : load_from_prd userStories = some q) :
    (∀ p : Int, q.stories.filter (fun s => priorityKeyD s.priority == p)
        = (userStories.map from_prd_story).filter
            (fun s => priorityKeyD s.priority == p)) ∧
    ((q.stories.map (fun s => priorityKeyD s.priority)).Nodup →
      ∀ s, (get_next_story q).2 = some s →
        s.status = .pending ∧ s ∈ q.stories ∧
        ∀ t ∈ q.stories, t.status = .pending →
          t = s ∨ priorityKeyD s.priority < priorityKeyD t.priority) := by
  have hq : q.stories = (userStories.map from_prd_story).insertionSort priorityLE := by
    unfold load_from_prd at hload
    by_cases hall : (userStories.map from_prd_story).all
        (fun s => (priorityKey s.priority).isSome) = true
    · simp only [hall, if_pos] at hload
      obtain rfl := by simpa using hload.symm
      rfl
    · simp only [hall] at hload
      simp at hload
  constructor
  · intro p
    rw [hq]
    exact insertionSort_filter_stable p (userStories.map from_prd_story)
  · intro hnodup s hsel
    have hsorted : q.stories.Sorted priorityLE := by
      rw [hq]; exact List.sorted_insertionSort priorityLE _
    have hfind : q.stories.find? (fun t => t.status = .pending) = some s := by
      unfold get_next_story at hsel
      cases hf : q.stories.find? (fun t => decide (t.status = .pending)) with
      | none => rw [hf] at hsel; simp at hsel
      | some t =>
          rw [hf] at hsel
          simp only [Option.some.injEq] at hsel
          exact congrArg some hsel
    exact find?_pending_minimal q.stories hsorted hnodup s hfind

/-- C7 witness: loading two stories of priorities [2, 1] sorts them to
[1, 2]; the selection returns the priority-1 story, which is minimal. -/
theorem C7_witness :
    ([storyA, storyB].filter (fun s => priorityKeyD s.priority == 1)
        = ([dictB, dictA].map from_prd_story).filter
            (fun s => priorityKeyD s.priority == 1)) ∧
    (storyA.status = .pending ∧ storyA ∈ [storyA, storyB] ∧
      ∀ t ∈ [storyA, storyB], t.status = .pending →
        t = storyA ∨ priorityKeyD storyA.priority < priorityKeyD t.priority) :=
  ⟨(C7_next_pending_order [dictB, dictA]
      { stories := [storyA, storyB], current_story_index := -1 } (by decide)).1 1,
   (C7_next_pending_order [dictB, dictA]
      { stories := [storyA, storyB], current_story_index := -1 } (by decide)).2
      (by decide) storyA (by decide)⟩

/-! Claim C8. -/

/-- Unfolding of `dget` over a cons cell. -/
theorem dget_cons (k0 : String) (v0 : PyVal) (rest : Dict) (k : String)
    (dflt : PyVal) :
    dget ((k0, v0) :: rest) k dflt = if k0 = k then v0 else dget rest k dflt := by
  by_cases h : k0 = k
  · subst h; simp [dget, List.find?]
  · have hb : (k0 == k) = false := by simpa using h
    rw [dget, List.find?]
    simp only [hb, if_neg h]
    rfl

/-- Setting a key then reading it back gives the new value. -/
theorem dget_dset_same : ∀ (d : Dict) (k : String) (v dflt : PyVal),
    dget (dset d k v) k dflt = v
  | [], k, v, dflt => by simp [dset, dget_cons, dget, List.find?]
  | (k0, v0) :: rest, k, v, dflt => by
      by_cases hk : k0 = k
      · rw [dset, if_pos hk, dget_cons, if_pos rfl]
      · rw [dset, if_neg hk, dget_cons, if_neg hk]
        exact dget_dset_same rest k v dflt

/-- Setting a key leaves every other key unchanged. -/
theorem dget_dset_ne : ∀ (d : Dict) (k k1 : String) (v dflt : PyVal), k1 ≠ k →
    dget (dset d k v) k1 dflt = dget d k1 dflt
  | [], k, k1, v, dflt, hne => by
      rw [dset, dget_cons, if_neg (fun h => hne h.symm)]
  | (k0, v0) :: rest, k, k1, v, dflt, hne => by
      by_cases hk : k0 = k
      · subst hk
        rw [dset, if_pos rfl, dget_cons, dget_cons,
          if_neg (fun h => hne h.symm), if_neg (fun h => hne h.symm)]
      · rw [dset, if_neg hk, dget_cons, dget_cons]
        by_cases hk1 : k0 = k1
        · rw [if_pos hk1, if_pos hk1]
        · rw [if_neg hk1, if_neg hk1]
          exact dget_dset_ne rest k k1 v dflt hne

/-- Splitting view of `set_passes_first`: with the first id match isolated,
only that story dict is rewritten (by `dset "passes" true`); the prefix and
suffix are returned untouched. -/
theorem set_passes_first_append (sid : PyVal) :
    ∀ (us1 : List Dict) (sd : Dict) (us2 : List Dict),
      (∀ sd1 ∈ us1, dget sd1 "id" PyVal.none ≠ sid) →
      dget sd "id" PyVal.none = sid →
      set_passes_first sid (us1 ++ sd :: us2)
        = us1 ++ dset sd "passes" (.bool true) :: us2
  | [], sd, us2, _, hm => by simp [set_passes_first, hm]
  | sd1 :: us1, sd, us2, hb, hm => by
      have h1 : dget sd1 "id" PyVal.none ≠ sid := hb sd1 (List.mem_cons_self sd1 us1)
      simp only [List.cons_append, set_passes_first, beq_iff_eq, if_neg h1]
      exact congrArg (fun x => sd1 :: x)
        (set_passes_first_append sid us1 sd us2
          (fun x hx => hb x (List.mem_cons_of_mem sd1 hx)) hm)

/-- C8: marking a story passed and persisting (write-through save plus
faithful JSON round-trip, modelled as the identity) changes exactly the
`passes` field of the first story dict whose id matches: the document's
other top-level fields, every other story, and every other field of the
marked story are unchanged, and the reloaded `passes` reads back `true`. -/
theorem C8_mark_passed_frame (doc : PrdDoc) (sid : PyVal) (us1 : List Dict)
    (sd : Dict) (us2 : List Dict)
    (hsplit : doc.userStories = us1 ++ sd :: us2)
    (hbefore : ∀ sd1 ∈ us1, dget sd1 "id" PyVal.none ≠ sid)
    (hmatch : dget sd "id" PyVal.none = sid) :
    (mark_story_passed doc sid).others = doc.others ∧
    (mark_story_passed doc sid).userStories
      = us1 ++ dset sd "passes" (.bool true) :: us2 ∧
    dget (dset sd "passes" (.bool true)) "passes" (.bool false) = .bool true ∧
    (∀ (k : String) (dflt : PyVal), k ≠ "passes" →
      dget (dset sd "passes" (.bool true)) k dflt = dget sd k dflt) := by
  refine ⟨rfl, ?_, dget_dset_same sd "passes" (.bool true) (.bool false), ?_⟩
  · rw [mark_story_passed]
    simp only [hsplit]
    exact set_passes_first_append sid us1 sd us2 hbefore hmatch
  · intro k dflt hk
    exact dget_dset_ne sd "passes" k (.bool true) dflt hk

/-- C8 witness: marking story `"a"` in the one-story document sets its
`passes` to `true` and leaves its other fields and the document untouched. -/
theorem C8_witness :
    (mark_story_passed docOne (.str "a")).others = docOne.others ∧
    (mark_story_passed docOne (.str "a")).userStories
      = [] ++ dset dictA "passes" (.bool true) :: [] ∧
    dget (dset dictA "passes" (.bool true)) "passes" (.bool false) = .bool true ∧
    (∀ (k : String) (dflt : PyVal), k ≠ "passes" →
      dget (dset dictA "passes" (.bool true)) k dflt = dget dictA k dflt) :=
  C8_mark_passed_frame docOne (.str "a") [] dictA [] rfl
    (by intro sd1 h; simp at h) (by decide)

/-! Claim C9. -/

/-- C9 counterexample: a story with a present but non-integer priority does
NOT get the 999 sentinel — the invalid value is stored unchanged. -/
theorem C9_counterexample_invalid_priority_kept :
    (from_prd_story [("id", .str "s"), ("priority", .str "high")]).priority
      = .str "high" ∧
    (PyVal.str "high" ≠ PyVal.int 999) := by
  decide

/-- C9 (amended): a story whose priority key is absent gets the sentinel
999; loading sorts the queue by priority (so 999-keyed stories sink behind
all smaller explicit priorities) and is defined — does not crash — whenever
every resulting priority is numeric; a present non-integer priority is kept
unchanged and makes the model's sort undefined (Python raises `TypeError`
when such a key meets an int). -/
theorem C9_priority_default (story : Dict) :
    (dmem story "priority" = false → (from_prd_story story).priority = .int 999) ∧
    (∀ us : List Dict,
      (us.map from_prd_story).all (fun s => (priorityKey s.priority).isSome) →
      (load_from_prd us).isSome = true) ∧
    (∀ (us : List Dict) (q : BuildQueue), load_from_prd us = some q →
      q.stories.Sorted priorityLE) := by
  refine ⟨?_, ?_, ?_⟩
  · intro habs
    rw [from_prd_story]
    simp only
    rw [dget]
    cases hf : story.find? (fun kv => kv.1 == "priority") with
    | none => rfl
    | some kv =>
        exfalso
        rw [dmem, hf] at habs
        simp at habs
  · intro us hall
    rw [load_from_prd]
    simp only [hall, if_pos, Option.isSome_some]
  · intro us q hload
    rw [load_from_prd] at hload
    by_cases hall : (us.map from_prd_story).all
        (fun s => (priorityKey s.priority).isSome) = true
    · simp only [hall, if_pos] at hload
      obtain rfl := by simpa using hload.symm
      exact List.sorted_insertionSort priorityLE _
    · simp only [hall] at hload
      simp at hload

/-- C9 witness: a story dict without a priority key gets 999, a list of such
stories loads successfully, and the loaded queue is sorted. -/
theorem C9_witness :
    (dmem [("id", PyVal.str "s")] "priority" = false →
      (from_prd_story [("id", PyVal.str "s")]).priority = .int 999) ∧
    (((([("id", PyVal.str "s")] : Dict) :: []).map from_prd_story).all
        (fun s => (priorityKey s.priority).isSome) = true →
      (load_from_prd [[("id", PyVal.str "s")]]).isSome = true) :=
  ⟨(C9_priority_default [("id", PyVal.str "s")]).1,
   (C9_priority_default [("id", PyVal.str "s")]).2.1 [[("id", PyVal.str "s")]]⟩

/-! Claim C10. -/

/-- C10: a story that fails a selection cycle, is re-queued by the
should-continue check, and fails again has its id appended once per failing
cycle: on a one-story document whose cycles always fail, the run returns
`failed_story_ids = ["a", "a", "a"]`, so `failed_stories = 3` exceeds both
the number of distinct failed items (1) and `total_stories = 1`. -/
theorem C10_failed_ids_repeat :
    run cfgAlwaysFail (.ok docOne) 10
      = .ok (some { success := false, total_stories := 1, completed_stories := 0,
                    failed_stories := 3,
                    failed_story_ids := [.str "a", .str "a", .str "a"],
                    errors := ["a: Failed after 3 attempts",
                               "a: Failed after 3 attempts",
                               "a: Failed after 3 attempts"] }) ∧
    (1 : Nat) < 3 :=
  ⟨rfl, by decide⟩

/-! Claim C3. -/

/-- C3 counterexample: when the persistence write fails, `run` does not
return a structured `BuildResult` — the exception escapes `run` itself. -/
theorem C3_counterexample_save_error_escapes :
    run cfgSaveFails (.ok docOne) 10 = .error "save_prd failed" :=
  rfl

/-- C3 (amended): a failing PRD load is caught and produces the structured
zero-progress result with the message in `errors`; a failing persistence
write instead propagates out of `run` as an exception (an `Except.error`),
and no `BuildResult` is returned in that case. -/
theorem C3_load_caught_save_escapes :
    (∀ (cfg : RunCfg) (e : String) (fuel : Nat),
      run cfg (.error e) fuel
        = .ok (some { success := false, total_stories := 0, completed_stories := 0,
                      failed_stories := 0, failed_story_ids := [],
                      errors := [e] })) ∧
    (∀ (cfg : RunCfg) (doc : PrdDoc) (q : BuildQueue) (fuel : Nat) (e : String),
      load_from_prd doc.userStories = some q →
      excOf (runLoop cfg fuel (init_state doc q)) = some e →
      run cfg (.ok doc) fuel = .error e) := by
  constructor
  · intro cfg e fuel; rfl
  · intro cfg doc q fuel e hload hexc
    cases hout : runLoop cfg fuel (init_state doc q) with
    | done st => rw [hout] at hexc; simp [excOf] at hexc
    | fuelOut st => rw [hout] at hexc; simp [excOf] at hexc
    | exc e1 st =>
        rw [hout] at hexc
        simp only [excOf, Option.some.injEq] at hexc
        rw [run, hload]
        simp only [hout, hexc]

/-- C3 witness: the amended statement at a missing-PRD input and at the
one-story document whose first persistence write fails. -/
theorem C3_witness :
    run cfgAllGood (.error "prd.json not found") 5
      = .ok (some { success := false, total_stories := 0, completed_stories := 0,
                    failed_stories := 0, failed_story_ids := [],
                    errors := ["prd.json not found"] }) ∧
    run cfgSaveFails (.ok docOne) 10 = .error "save_prd failed" :=
  ⟨C3_load_caught_save_escapes.1 cfgAllGood "prd.json not found" 5,
   C3_load_caught_save_escapes.2 cfgSaveFails docOne qOne 10 "save_prd failed"
     (by decide) (by decide)⟩

/-! Claim C6. -/

/-- Splitting view of `select_pending`: the list decomposes into a
non-pending prefix, the selected pending story (replaced by its bumped
`InProgress` version), and an untouched suffix. -/
theorem select_pending_split :
    ∀ (l : List StoryState) (i : Nat) (l1 : List StoryState) (s1 : StoryState),
      select_pending l = some (i, l1, s1) →
      ∃ us s vs, l = us ++ s :: vs ∧ l1 = us ++ s1 :: vs ∧
        (∀ t ∈ us, t.status ≠ .pending) ∧ s.status = .pending ∧
        s1 = { s with status := StoryStatus.in_progress,
                      attempt_count := s.attempt_count + 1 } ∧
        i = us.length
  | [], _, _, _, h => by simp [select_pending] at h
  | s :: rest, i, l1, s1, h => by
      by_cases hp : s.status = .pending
      · simp only [select_pending, if_pos hp, Option.some.injEq, Prod.mk.injEq] at h
        obtain ⟨hi, hl, hs⟩ := h
        exact ⟨[], s, rest, by simp, by simp [← hl, ← hs], by simp, hp, hs.symm,
          by simp [← hi]⟩
      · cases hrec : select_pending rest with
        | none =>
            rw [select_pending, if_neg hp, hrec] at h
            exact absurd h (by simp)
        | some v =>
            obtain ⟨j, rest1, t1⟩ := v
            rw [select_pending, if_neg hp, hrec] at h
            simp only [Option.some.injEq, Prod.mk.injEq] at h
            obtain ⟨hi, hl, hs⟩ := h
            obtain ⟨us, s0, vs, hrest, hrest1, hus, hs0, ht1, hj⟩ :=
              select_pending_split rest j rest1 t1 hrec
            refine ⟨s :: us, s0, vs, by rw [hrest]; rfl, ?_, ?_, hs0, hs ▸ ht1, ?_⟩
            · rw [← hl, hrest1, hs]; rfl
            · intro t ht
              rcases List.mem_cons.mp ht with rfl | ht
              · exact hp
              · exact hus t ht
            · rw [← hi, hj]; rfl

/-- Outcome of `scrum_get_next_story` when nothing is selected. -/
theorem scrum_get_next_story_none (q q1 : BuildQueue)
    (h : scrum_get_next_story q = (q1, Option.none)) :
    q1 = q ∧ select_pending q.stories = Option.none := by
  rw [scrum_get_next_story] at h
  cases hsel : select_pending q.stories with
  | none => rw [hsel] at h; exact ⟨(Prod.mk.injEq .. ▸ h).1.symm, rfl⟩
  | some v =>
      obtain ⟨i, l1, s1⟩ := v
      rw [hsel] at h
      simp at h

/-- Outcome of `scrum_get_next_story` when a story is selected. -/
theorem scrum_get_next_story_some (q q1 : BuildQueue) (story : StoryState)
    (h : scrum_get_next_story q = (q1, some story)) :
    ∃ i l1, select_pending q.stories = some (i, l1, story) ∧
      q1 = { stories := l1, current_story_index := (i : Int) } := by
  rw [scrum_get_next_story] at h
  cases hsel : select_pending q.stories with
  | none => rw [hsel] at h; simp at h
  | some v =>
      obtain ⟨i, l1, s1⟩ := v
      rw [hsel] at h
      simp only [Prod.mk.injEq, Option.some.injEq] at h
      obtain ⟨hq1, hs1⟩ := h
      subst hs1
      exact ⟨i, l1, rfl, hq1.symm⟩

/-- Updating the first story matched by a predicate that cannot match an
id-`sid` story preserves `exhaustedFailed`, provided the update keeps ids. -/
theorem exhaustedFailed_updateFirst (mr : Nat) (sid : PyVal)
    (p : StoryState → Bool) (f : StoryState → StoryState)
    (hfid : ∀ s, (f s).id = s.id)
    (hp : ∀ s, p s = true → s.id ≠ sid) :
    ∀ l, exhaustedFailed mr sid l → exhaustedFailed mr sid (updateFirst p f l)
  | [], _ => by intro t ht; simp [updateFirst] at ht
  | s :: rest, hex => by
      intro t ht htid
      by_cases hps : p s = true
      · rw [updateFirst, if_pos hps] at ht
        rcases List.mem_cons.mp ht with rfl | ht
        · exact absurd ((hfid s) ▸ htid) (hp s hps)
        · exact hex t (List.mem_cons_of_mem s ht) htid
      · rw [updateFirst, if_neg hps] at ht
        rcases List.mem_cons.mp ht with rfl | ht
        · exact hex t (List.mem_cons_self ..) htid
        · exact exhaustedFailed_updateFirst mr sid p f hfid hp rest
            (fun u hu hui => hex u (List.mem_cons_of_mem s hu) hui) t ht htid

/-- The should-continue scan preserves `exhaustedFailed`: it resets only
stories with remaining retry budget. -/
theorem exhaustedFailed_should_continue (mr : Nat) (sid : PyVal) :
    ∀ l, exhaustedFailed mr sid l →
      exhaustedFailed mr sid (should_continue_build mr l).1
  | [], _ => by intro t ht; simp [should_continue_build] at ht
  | s :: rest, hex => by
      intro t ht htid
      by_cases hp : s.status = .pending
      · rw [should_continue_build, if_pos hp] at ht
        exact hex t ht htid
      · by_cases hr : (s.status = .failed ∨ s.status = .blocked) ∧ s.attempt_count < mr
        · rw [should_continue_build, if_neg hp, if_pos hr] at ht
          rcases List.mem_cons.mp ht with rfl | ht
          · exact absurd (hex s (List.mem_cons_self ..) htid).2 (Nat.not_le.mpr hr.2)
          · exact hex t (List.mem_cons_of_mem s ht) htid
        · rw [should_continue_build, if_neg hp, if_neg hr] at ht
          rcases List.mem_cons.mp ht with rfl | ht
          · exact hex t (List.mem_cons_self ..) htid
          · exact exhaustedFailed_should_continue mr sid rest
              (fun u hu hui => hex u (List.mem_cons_of_mem s hu) hui) t ht htid

/-- State reached through `check_continue`: the queue goes through the
should-continue scan, everything else (in particular the trace) stays. -/
theorem check_continue_state (cfg : RunCfg) (st : RunState) :
    (stateOfIter (check_continue cfg st)).queue.stories
      = (should_continue_build cfg.mr st.queue.stories).1 ∧
    (stateOfIter (check_continue cfg st)).trace = st.trace ∧
    (stateOfIter (check_continue cfg st)).completed = st.completed ∧
    (stateOfIter (check_continue cfg st)).failedIds = st.failedIds := by
  rw [check_continue]
  rcases hsc : should_continue_build cfg.mr st.queue.stories with ⟨stories1, b⟩
  cases b
  · exact ⟨rfl, rfl, rfl, rfl⟩
  · exact ⟨rfl, rfl, rfl, rfl⟩

/-- One loop iteration from a state whose id-`sid` stories are all
exhausted-failed: they stay exhausted-failed, and the iteration selects at
most one story, whose id is not `sid`. -/
theorem loopIter_exhausted (cfg : RunCfg) (sid : PyVal) (st : RunState)
    (hex : exhaustedFailed cfg.mr sid st.queue.stories) :
    exhaustedFailed cfg.mr sid (stateOfIter (loopIter cfg st)).queue.stories ∧
    ((stateOfIter (loopIter cfg st)).trace = st.trace ∨
      ∃ x, (stateOfIter (loopIter cfg st)).trace = st.trace ++ [x] ∧ x ≠ sid) := by
  rw [loopIter]
  rcases hget : scrum_get_next_story st.queue with ⟨q1, sel⟩
  cases sel with
  | none =>
      obtain ⟨rfl, -⟩ := scrum_get_next_story_none st.queue q1 hget
      exact ⟨hex, Or.inl rfl⟩
  | some story =>
      obtain ⟨i, l1, hsel, hq1⟩ := scrum_get_next_story_some st.queue q1 story hget
      subst hq1
      obtain ⟨us, s, vs, hl, hl1, hus, hsp, hs1, -⟩ :=
        select_pending_split st.queue.stories i l1 story hsel
      have hsid : story.id ≠ sid := by
        rw [hs1]
        intro hid
        have hmem : s ∈ st.queue.stories := by
          rw [hl]; exact List.mem_append_right us (List.mem_cons_self ..)
        have := (hex s hmem hid).1
        rw [hsp] at this
        exact absurd this (by simp)
      have hexl1 : exhaustedFailed cfg.mr sid l1 := by
        intro t ht htid
        rw [hl1] at ht
        rcases List.mem_append.mp ht with ht | ht
        · exact hex t (by rw [hl]; exact List.mem_append_left _ ht) htid
        · rcases List.mem_cons.mp ht with rfl | ht
          · exact absurd htid hsid
          · exact hex t
              (by rw [hl]; exact List.mem_append_right us (List.mem_cons_of_mem s ht))
              htid
      have hmarkf : ∀ reason, exhaustedFailed cfg.mr sid
          (mark_story_failed story.id reason l1) := by
        intro reason
        unfold mark_story_failed
        exact exhaustedFailed_updateFirst cfg.mr sid
          (fun s0 => s0.id == story.id)
          (fun s0 => { s0 with status := StoryStatus.failed,
                               failure_reasons := s0.failure_reasons ++ [reason] })
          (fun s0 => rfl)
          (fun s0 hp0 => by
            have h1 : s0.id = story.id := by simpa using hp0
            rw [h1]; exact hsid) l1 hexl1
      have hmarkc : exhaustedFailed cfg.mr sid (mark_story_completed story.id l1) := by
        unfold mark_story_completed
        exact exhaustedFailed_updateFirst cfg.mr sid
          (fun s0 => s0.id == story.id)
          (fun s0 => { s0 with status := StoryStatus.completed, blockers := [] })
          (fun s0 => rfl)
          (fun s0 hp0 => by
            have h1 : s0.id = story.id := by simpa using hp0
            rw [h1]; exact hsid) l1 hexl1
      by_cases hskip : story.status = .failed ∧ cfg.mr ≤ story.attempt_count
      · simp only [hskip, and_self, if_pos, stateOfIter]
        exact ⟨hexl1, Or.inr ⟨story.id, rfl, hsid⟩⟩
      · simp only [if_neg hskip]
        cases hfind : find_story_data st.prd.userStories story.id with
        | none =>
            simp only [stateOfIter]
            exact ⟨hmarkf "Story not found in PRD", Or.inr ⟨story.id, rfl, hsid⟩⟩
        | some sd =>
            rcases hrun : run_story_with_retries cfg st.implCtr with ⟨b, ctr1⟩
            cases b with
            | true =>
                by_cases hsave : cfg.saveOk st.saveCtr = true
                · simp only [hsave, if_pos]
                  obtain ⟨hst3, htr3, -, -⟩ := check_continue_state cfg _
                  rw [hst3, htr3]
                  exact ⟨exhaustedFailed_should_continue cfg.mr sid _ hmarkc,
                    Or.inr ⟨story.id, rfl, hsid⟩⟩
                · simp only [hsave, Bool.false_eq_true, if_neg, stateOfIter]
                  exact ⟨hexl1, Or.inr ⟨story.id, rfl, hsid⟩⟩
            | false =>
                obtain ⟨hst3, htr3, -, -⟩ := check_continue_state cfg _
                rw [hst3, htr3]
                exact ⟨exhaustedFailed_should_continue cfg.mr sid _ (hmarkf _),
                  Or.inr ⟨story.id, rfl, hsid⟩⟩

/-- Remainder of the run from a state whose id-`sid` stories are all
exhausted-failed: the trace grows only by ids different from `sid`. -/
theorem runLoop_exhausted_trace (cfg : RunCfg) (sid : PyVal) :
    ∀ (fuel : Nat) (st : RunState),
      exhaustedFailed cfg.mr sid st.queue.stories →
      ∃ rest, (stateOfRun (runLoop cfg fuel st)).trace = st.trace ++ rest ∧
        sid ∉ rest := by
  intro fuel
  induction fuel with
  | zero =>
      intro st _
      exact ⟨[], by simp [runLoop, stateOfRun], by simp⟩
  | succ fuel ih =>
      intro st hex
      have hstep := loopIter_exhausted cfg sid st hex
      rw [runLoop]
      cases hiter : loopIter cfg st with
      | brk st1 =>
          rw [hiter] at hstep
          simp only [stateOfIter] at hstep
          rcases hstep.2 with htr | ⟨x, htr, hx⟩
          · exact ⟨[], by simp [stateOfRun, htr], by simp⟩
          · exact ⟨[x], by simp [stateOfRun, htr], by simpa using fun h => hx h.symm⟩
      | exc e st1 =>
          rw [hiter] at hstep
          simp only [stateOfIter] at hstep
          rcases hstep.2 with htr | ⟨x, htr, hx⟩
          · exact ⟨[], by simp [stateOfRun, htr], by simp⟩
          · exact ⟨[x], by simp [stateOfRun, htr], by simpa using fun h => hx h.symm⟩
      | next st1 =>
          rw [hiter] at hstep
          simp only [stateOfIter] at hstep
          obtain ⟨rest, hrest, hnin⟩ := ih st1 hstep.1
          rcases hstep.2 with htr | ⟨x, htr, hx⟩
          · exact ⟨rest, by rw [hrest, htr], hnin⟩
          · refine ⟨x :: rest, ?_, ?_⟩
            · rw [hrest, htr, List.append_assoc, List.singleton_append]
            · intro hmem
              rcases List.mem_cons.mp hmem with rfl | hmem
              · exact hx rfl
              · exact hnin hmem

/-- C6: once a story is `Failed` with `attempt_count ≥ max_retries` at any
point of a run, `next_pending` selection never returns it again for the
rest of that run: its id does not occur among the ids selected from that
point on. -/
theorem C6_exhausted_never_reselected (cfg : RunCfg) (sid : PyVal)
    (fuel : Nat) (st : RunState)
    (hex : exhaustedFailed cfg.mr sid st.queue.stories) :
    sid ∉ (stateOfRun (runLoop cfg fuel st)).trace.drop st.trace.length := by
  obtain ⟨rest, hrest, hnin⟩ := runLoop_exhausted_trace cfg sid fuel st hex
  rw [hrest, List.drop_left]
  exact hnin

/-- C6 witness: from the mid-run state where story `"a"` is failed with
exhausted budget, the remaining selections never pick `"a"` again. -/
theorem C6_witness :
    PyVal.str "a"
      ∉ (stateOfRun (runLoop cfgAllGood 10 stExh)).trace.drop stExh.trace.length :=
  C6_exhausted_never_reselected cfgAllGood (.str "a") 10 stExh
    (by unfold exhaustedFailed; decide)

/-! Claim C4. -/

/-- Characterization of the should-continue verdict: false exactly when no
story is `Pending` and every `Failed`/`Blocked` story has spent its retry
budget. -/
theorem should_continue_false_iff (mr : Nat) :
    ∀ l : List StoryState,
      (should_continue_build mr l).2 = false ↔
        ∀ s ∈ l, s.status ≠ .pending ∧
          ((s.status = .failed ∨ s.status = .blocked) → mr ≤ s.attempt_count)
  | [] => by simp [should_continue_build]
  | s :: rest => by
      by_cases hp : s.status = .pending
      · rw [should_continue_build, if_pos hp]
        simp only [Bool.true_eq_false, false_iff]
        intro hall
        exact (hall s (List.mem_cons_self ..)).1 hp
      · by_cases hr : (s.status = .failed ∨ s.status = .blocked) ∧ s.attempt_count < mr
        · rw [should_continue_build, if_neg hp, if_pos hr]
          simp only [Bool.true_eq_false, false_iff]
          intro hall
          exact absurd ((hall s (List.mem_cons_self ..)).2 hr.1) (Nat.not_le.mpr hr.2)
        · rw [should_continue_build, if_neg hp, if_neg hr]
          rw [should_continue_false_iff mr rest]
          constructor
          · intro hall t ht
            rcases List.mem_cons.mp ht with rfl | ht
            · refine ⟨hp, fun hfb => ?_⟩
              rcases Nat.lt_or_ge t.attempt_count mr with hlt | hge
              · exact absurd ⟨hfb, hlt⟩ hr
              · exact hge
            · exact hall t ht
          · intro hall t ht
            exact hall t (List.mem_cons_of_mem s ht)

/-- The attempt-loop counter advances by at most the retry bound. -/
theorem run_story_attempts_le (cfg : RunCfg) :
    ∀ (m ctr : Nat), (run_story_attempts cfg m ctr).2 ≤ ctr + m
  | 0, ctr => Nat.le_refl ctr
  | m + 1, ctr => by
      rw [run_story_attempts, implement_story]
      cases cfg.impl ctr
      · simpa [Nat.add_assoc, Nat.add_comm 1 m] using
          run_story_attempts_le cfg m (ctr + 1)
      · simp

/-- Updating a story without touching its attempt count and without making
it pending preserves the pending-budget invariant and the measure. -/
theorem attemptInv_attSum_updateFirst (mr : Nat) (p : StoryState → Bool)
    (f : StoryState → StoryState) (hfp : ∀ s, (f s).status ≠ .pending)
    (hfa : ∀ s, (f s).attempt_count = s.attempt_count) :
    ∀ l, (attemptInv mr l → attemptInv mr (updateFirst p f l)) ∧
      attSum mr (updateFirst p f l) = attSum mr l
  | [] => ⟨fun h => h, rfl⟩
  | s :: rest => by
      by_cases hps : p s = true
      · rw [updateFirst, if_pos hps]
        constructor
        · intro hinv t ht htp
          rcases List.mem_cons.mp ht with rfl | ht
          · exact absurd htp (hfp s)
          · exact hinv t (List.mem_cons_of_mem s ht) htp
        · simp [attSum, hfa s]
      · rw [updateFirst, if_neg hps]
        constructor
        · intro hinv t ht htp
          rcases List.mem_cons.mp ht with rfl | ht
          · exact hinv t (List.mem_cons_self ..) htp
          · exact (attemptInv_attSum_updateFirst mr p f hfp hfa rest).1
              (fun u hu hup => hinv u (List.mem_cons_of_mem s hu) hup) t ht htp
        · simp [attSum]
          exact congrArg (fun x => x)
            ((attemptInv_attSum_updateFirst mr p f hfp hfa rest).2)

/-- The should-continue scan preserves the pending-budget invariant (the
story it resets has budget left) and the measure (it touches no attempt
count). -/
theorem attemptInv_attSum_should_continue (mr : Nat) :
    ∀ l, (attemptInv mr l → attemptInv mr (should_continue_build mr l).1) ∧
      attSum mr (should_continue_build mr l).1 = attSum mr l
  | [] => ⟨fun h => h, rfl⟩
  | s :: rest => by
      by_cases hp : s.status = .pending
      · rw [should_continue_build, if_pos hp]
        exact ⟨fun h => h, rfl⟩
      · by_cases hr : (s.status = .failed ∨ s.status = .blocked) ∧ s.attempt_count < mr
        · rw [should_continue_build, if_neg hp, if_pos hr]
          constructor
          · intro hinv t ht htp
            rcases List.mem_cons.mp ht with rfl | ht
            · exact hr.2
            · exact hinv t (List.mem_cons_of_mem s ht) htp
          · simp [attSum]
        · rw [should_continue_build, if_neg hp, if_neg hr]
          constructor
          · intro hinv t ht htp
            rcases List.mem_cons.mp ht with rfl | ht
            · exact hinv t (List.mem_cons_self ..) htp
            · exact (attemptInv_attSum_should_continue mr rest).1
                (fun u hu hup => hinv u (List.mem_cons_of_mem s hu) hup) t ht htp
          · simp [attSum]
            exact (attemptInv_attSum_should_continue mr rest).2

/-- One continuing loop iteration preserves the pending-budget invariant
and strictly decreases the remaining retry budget: every `next` outcome
selected a pending story and bumped its attempt count. -/
theorem loopIter_next_measure (cfg : RunCfg) (st st1 : RunState)
    (hinv : attemptInv cfg.mr st.queue.stories)
    (hnext : loopIter cfg st = IterOut.next st1) :
    attemptInv cfg.mr st1.queue.stories ∧
    loopMeasure cfg.mr st1 < loopMeasure cfg.mr st := by
  rw [loopIter] at hnext
  rcases hget : scrum_get_next_story st.queue with ⟨q1, sel⟩
  rw [hget] at hnext
  cases sel with
  | none => exact absurd hnext (by simp)
  | some story =>
      obtain ⟨i, l1, hsel, hq1⟩ := scrum_get_next_story_some st.queue q1 story hget
      subst hq1
      obtain ⟨us, s, vs, hl, hl1, hus, hsp, hs1, -⟩ :=
        select_pending_split st.queue.stories i l1 story hsel
      have hsmem : s ∈ st.queue.stories := by
        rw [hl]; exact List.mem_append_right us (List.mem_cons_self ..)
      have hsa : s.attempt_count < cfg.mr := hinv s hsmem hsp
      have hinv1 : attemptInv cfg.mr l1 := by
        intro t ht htp
        rw [hl1] at ht
        rcases List.mem_append.mp ht with ht | ht
        · exact hinv t (by rw [hl]; exact List.mem_append_left _ ht) htp
        · rcases List.mem_cons.mp ht with rfl | ht
          · rw [hs1] at htp; simp at htp
          · exact hinv t
              (by rw [hl]; exact List.mem_append_right us (List.mem_cons_of_mem s ht))
              htp
      have hmeas1 : attSum cfg.mr l1 < attSum cfg.mr st.queue.stories := by
        rw [hl, hl1, hs1]
        simp only [attSum, List.map_append, List.sum_append, List.map_cons,
          List.sum_cons]
        have hd : cfg.mr - (s.attempt_count + 1) < cfg.mr - s.attempt_count := by
          omega
        omega
      have hmarkf : ∀ reason,
          attemptInv cfg.mr (mark_story_failed story.id reason l1) ∧
          attSum cfg.mr (mark_story_failed story.id reason l1) = attSum cfg.mr l1 := by
        intro reason
        unfold mark_story_failed
        have h := attemptInv_attSum_updateFirst cfg.mr
          (fun s0 => s0.id == story.id)
          (fun s0 => { s0 with status := StoryStatus.failed,
                               failure_reasons := s0.failure_reasons ++ [reason] })
          (fun s0 => by simp) (fun s0 => rfl) l1
        exact ⟨h.1 hinv1, h.2⟩
      have hmarkc :
          attemptInv cfg.mr (mark_story_completed story.id l1) ∧
          attSum cfg.mr (mark_story_completed story.id l1) = attSum cfg.mr l1 := by
        unfold mark_story_completed
        have h := attemptInv_attSum_updateFirst cfg.mr
          (fun s0 => s0.id == story.id)
          (fun s0 => { s0 with status := StoryStatus.completed, blockers := [] })
          (fun s0 => by simp) (fun s0 => rfl) l1
        exact ⟨h.1 hinv1, h.2⟩
      by_cases hskip : story.status = .failed ∧ cfg.mr ≤ story.attempt_count
      · simp only [hskip, and_self, if_pos] at hnext
        cases hnext
        exact ⟨hinv1, by simpa [loopMeasure] using hmeas1⟩
      · simp only [if_neg hskip] at hnext
        cases hfind : find_story_data st.prd.userStories story.id with
        | none =>
            simp only [hfind] at hnext
            cases hnext
            refine ⟨(hmarkf "Story not found in PRD").1, ?_⟩
            simp only [loopMeasure]
            rw [(hmarkf "Story not found in PRD").2]
            exact hmeas1
        | some sd =>
            simp only [hfind] at hnext
            rcases hrun : run_story_with_retries cfg st.implCtr with ⟨b, ctr1⟩
            rw [hrun] at hnext
            cases b with
            | true =>
                by_cases hsave : cfg.saveOk st.saveCtr = true
                · simp only [hsave, if_pos] at hnext
                  have hcc := check_continue_state cfg
                    { st with
                      queue := { stories := mark_story_completed story.id l1,
                                 current_story_index := (i : Int) },
                      prd := mark_story_passed st.prd story.id,
                      completed := st.completed + 1,
                      implCtr := ctr1, saveCtr := st.saveCtr + 1,
                      trace := st.trace ++ [story.id] }
                  rw [hnext] at hcc
                  simp only [stateOfIter] at hcc
                  constructor
                  · rw [hcc.1]
                    exact (attemptInv_attSum_should_continue cfg.mr _).1 hmarkc.1
                  · simp only [loopMeasure]
                    rw [hcc.1, (attemptInv_attSum_should_continue cfg.mr _).2,
                      hmarkc.2]
                    exact hmeas1
                · simp only [hsave, Bool.false_eq_true, if_neg] at hnext
                  exact absurd hnext (by simp)
            | false =>
                replace hnext : check_continue cfg
                    { st with
                      queue :=
                        { stories := mark_story_failed story.id ("Failed after " ++ toString cfg.mr ++ " attempts") l1,
                          current_story_index := (i : Int) },
                      implCtr := ctr1,
                      failedIds := st.failedIds ++ [story.id],
                      errors := st.errors ++ [pyStr story.id ++ ": " ++ ("Failed after " ++ toString cfg.mr ++ " attempts")],
                      trace := st.trace ++ [story.id] } = IterOut.next st1 := hnext
                have hcc := check_continue_state cfg
                  { st with
                    queue :=
                      { stories := mark_story_failed story.id ("Failed after " ++ toString cfg.mr ++ " attempts") l1,
                        current_story_index := (i : Int) },
                    implCtr := ctr1,
                    failedIds := st.failedIds ++ [story.id],
                    errors := st.errors ++ [pyStr story.id ++ ": " ++ ("Failed after " ++ toString cfg.mr ++ " attempts")],
                    trace := st.trace ++ [story.id] }
                rw [hnext] at hcc
                simp only [stateOfIter] at hcc
                constructor
                · rw [hcc.1]
                  exact (attemptInv_attSum_should_continue cfg.mr _).1 (hmarkf _).1
                · simp only [loopMeasure]
                  rw [hcc.1, (attemptInv_attSum_should_continue cfg.mr _).2,
                    (hmarkf _).2]
                  exact hmeas1

/-- The loop never runs out of fuel exceeding its remaining retry budget. -/
theorem runLoop_terminates (cfg : RunCfg) :
    ∀ (fuel : Nat) (st : RunState), attemptInv cfg.mr st.queue.stories →
      loopMeasure cfg.mr st < fuel → isFuelOut (runLoop cfg fuel st) = false := by
  intro fuel
  induction fuel with
  | zero => intro st _ h; exact absurd h (Nat.not_lt_zero _)
  | succ fuel ih =>
      intro st hinv hm
      rw [runLoop]
      cases hiter : loopIter cfg st with
      | brk st1 => simp [isFuelOut]
      | exc e st1 => simp [isFuelOut]
      | next st1 =>
          obtain ⟨hinv1, hlt⟩ := loopIter_next_measure cfg st st1 hinv hiter
          exact ih st1 hinv1 (lt_of_lt_of_le hlt (Nat.lt_succ_iff.mp hm))

/-- The retry budget of a list is at most its length times the bound. -/
theorem attSum_le (mr : Nat) : ∀ l : List StoryState, attSum mr l ≤ l.length * mr
  | [] => by simp [attSum]
  | s :: rest => by
      simp only [attSum, List.map_cons, List.sum_cons, List.length_cons]
      have h1 : mr - s.attempt_count ≤ mr := Nat.sub_le mr s.attempt_count
      have h2 := attSum_le mr rest
      simp only [attSum] at h2
      rw [Nat.succ_mul]
      omega

/-- Stories coming out of `load_from_prd` have attempt count 0 (they are
fresh `from_prd_story` values). -/
theorem load_attempts_zero (us : List Dict) (q : BuildQueue)
    (hload : load_from_prd us = some q) :
    ∀ s ∈ q.stories, s.attempt_count = 0 := by
  have hq : q.stories = (us.map from_prd_story).insertionSort priorityLE := by
    unfold load_from_prd at hload
    by_cases hall : (us.map from_prd_story).all
        (fun s => (priorityKey s.priority).isSome) = true
    · simp only [hall, if_pos] at hload
      obtain rfl := by simpa using hload.symm
      rfl
    · simp only [hall] at hload
      simp at hload
  intro s hs
  rw [hq] at hs
  rw [List.mem_insertionSort] at hs
  obtain ⟨sd, -, rfl⟩ := List.mem_map.mp hs
  rfl

/-- C4 (amended): the should-continue verdict is false exactly when no
story is `Pending` and every `Failed`/`Blocked` story has
`attempt_count ≥ max_retries` (an `InProgress` story also yields false);
each selection cycle makes at most `max_retries` implement+verify attempts;
and for `max_retries ≥ 1` the run loop terminates within
`items × max_retries` selection cycles — hence within
`items × max_retries²` implement+verify attempts, not the claimed
`items × max_retries`. -/
theorem C4_should_continue_iff_and_termination (cfg : RunCfg) (doc : PrdDoc)
    (q : BuildQueue) (hmr : 1 ≤ cfg.mr)
    (hload : load_from_prd doc.userStories = some q) :
    (∀ (mr : Nat) (l : List StoryState),
      (should_continue_build mr l).2 = false ↔
        ∀ s ∈ l, s.status ≠ .pending ∧
          ((s.status = .failed ∨ s.status = .blocked) → mr ≤ s.attempt_count)) ∧
    (∀ ctr : Nat, (run_story_with_retries cfg ctr).2 ≤ ctr + cfg.mr) ∧
    isFuelOut (runLoop cfg (doc.userStories.length * cfg.mr + 1)
      (init_state doc q)) = false := by
  refine ⟨fun mr => should_continue_false_iff mr, fun ctr => ?_, ?_⟩
  · exact run_story_attempts_le cfg cfg.mr ctr
  · have hlen : q.stories.length = doc.userStories.length := by
      have hq : q.stories = (doc.userStories.map from_prd_story).insertionSort
          priorityLE := by
        unfold load_from_prd at hload
        by_cases hall : (doc.userStories.map from_prd_story).all
            (fun s => (priorityKey s.priority).isSome) = true
        · simp only [hall, if_pos] at hload
          obtain rfl := by simpa using hload.symm
          rfl
        · simp only [hall] at hload
          simp at hload
      rw [hq, List.length_insertionSort, List.length_map]
    apply runLoop_terminates
    · intro s hs _
      rw [load_attempts_zero doc.userStories q hload s hs]
      exact hmr
    · calc loopMeasure cfg.mr (init_state doc q)
          ≤ q.stories.length * cfg.mr := attSum_le cfg.mr q.stories
        _ = doc.userStories.length * cfg.mr := by rw [hlen]
        _ < doc.userStories.length * cfg.mr + 1 := Nat.lt_succ_self _

/-- C4 witness: the amended statement at the one-story document — the iff
at a singleton exhausted queue, the per-cycle bound at counter 0, and
termination of the loop within `1 × 3 + 1` iterations. -/
theorem C4_witness :
    ((should_continue_build 3 [storyA_exhausted]).2 = false ↔
      ∀ s ∈ [storyA_exhausted], s.status ≠ .pending ∧
        ((s.status = .failed ∨ s.status = .blocked) → 3 ≤ s.attempt_count)) ∧
    (run_story_with_retries cfgAllGood 0).2 ≤ 0 + cfgAllGood.mr ∧
    isFuelOut (runLoop cfgAllGood
      (docOne.userStories.length * cfgAllGood.mr + 1) (init_state docOne qOne))
      = false :=
  ⟨(C4_should_continue_iff_and_termination cfgAllGood docOne qOne (by decide)
      (by decide)).1 3 [storyA_exhausted],
   (C4_should_continue_iff_and_termination cfgAllGood docOne qOne (by decide)
      (by decide)).2.1 0,
   (C4_should_continue_iff_and_termination cfgAllGood docOne qOne (by decide)
      (by decide)).2.2⟩

/-- C4 counterexample: with one story and `max_retries = 3`, an always
failing run performs 9 implement+verify attempts, exceeding the claimed
bound `items × max_retries = 3`; and the should-continue verdict is false
on a queue holding an `InProgress` story, which is neither `Completed` nor
a `Failed`/`Blocked` story with exhausted budget. -/
theorem C4_counterexample_bound_and_iff :
    (stateOfRun (runLoop cfgAlwaysFail 10 (init_state docOne qOne))).implCtr = 9 ∧
    ¬(9 ≤ docOne.userStories.length * cfgAlwaysFail.mr) ∧
    (should_continue_build 3 [storyA_sel]).2 = false ∧
    ¬(storyA_sel.status = .completed ∨
      ((storyA_sel.status = .failed ∨ storyA_sel.status = .blocked) ∧
        3 ≤ storyA_sel.attempt_count)) := by
  refine ⟨by decide, by decide, by decide, by decide⟩

/-! Claim C2. -/

/-- Extraction of the queue produced by a successful load. -/
theorem load_from_prd_eq (us : List Dict) (q : BuildQueue)
    (hload : load_from_prd us = some q) :
    q.stories = (us.map from_prd_story).insertionSort priorityLE := by
  unfold load_from_prd at hload
  by_cases hall : (us.map from_prd_story).all
      (fun s => (priorityKey s.priority).isSome) = true
  · simp only [hall, if_pos] at hload
    obtain rfl := by simpa using hload.symm
    rfl
  · simp only [hall] at hload
    simp at hload

/-- Updating one story without changing its id leaves the id list alone. -/
theorem storyIds_updateFirst (p : StoryState → Bool) (f : StoryState → StoryState)
    (hid : ∀ s, (f s).id = s.id) :
    ∀ l, storyIds (updateFirst p f l) = storyIds l
  | [] => rfl
  | s :: rest => by
      by_cases hps : p s = true
      · rw [updateFirst, if_pos hps]
        simp [storyIds, hid s]
      · rw [updateFirst, if_neg hps]
        simp only [storyIds, List.map_cons]
        rw [show List.map (fun s => s.id) (updateFirst p f rest)
            = storyIds (updateFirst p f rest) from rfl,
          storyIds_updateFirst p f hid rest]
        rfl

/-- The should-continue scan leaves the id list alone. -/
theorem storyIds_should_continue (mr : Nat) :
    ∀ l, storyIds (should_continue_build mr l).1 = storyIds l
  | [] => rfl
  | s :: rest => by
      by_cases hp : s.status = .pending
      · rw [should_continue_build, if_pos hp]
      · by_cases hr : (s.status = .failed ∨ s.status = .blocked) ∧ s.attempt_count < mr
        · rw [should_continue_build, if_neg hp, if_pos hr]
          simp [storyIds]
        · rw [should_continue_build, if_neg hp, if_neg hr]
          simp only [storyIds, List.map_cons]
          rw [show List.map (fun s => s.id) (should_continue_build mr rest).1
              = storyIds (should_continue_build mr rest).1 from rfl,
            storyIds_should_continue mr rest]
          rfl

/-- Completed count distributes over append. -/
theorem countCompleted_append (l1 l2 : List StoryState) :
    countCompleted (l1 ++ l2) = countCompleted l1 + countCompleted l2 := by
  simp [countCompleted, List.filter_append]

/-- Completed count over a cons cell. -/
theorem countCompleted_cons (s : StoryState) (l : List StoryState) :
    countCompleted (s :: l)
      = (if s.status = .completed then 1 else 0) + countCompleted l := by
  by_cases h : s.status = .completed
  · simp [countCompleted, List.filter_cons, h]
    omega
  · simp [countCompleted, List.filter_cons, h]

/-- The should-continue scan does not change the completed count: it only
moves a `Failed`/`Blocked` story to `Pending`. -/
theorem countCompleted_should_continue (mr : Nat) :
    ∀ l, countCompleted (should_continue_build mr l).1 = countCompleted l
  | [] => rfl
  | s :: rest => by
      by_cases hp : s.status = .pending
      · rw [should_continue_build, if_pos hp]
      · by_cases hr : (s.status = .failed ∨ s.status = .blocked) ∧ s.attempt_count < mr
        · rw [should_continue_build, if_neg hp, if_pos hr]
          rw [countCompleted_cons, countCompleted_cons]
          have h1 : ¬ s.status = .completed := by
            rcases hr.1 with h | h <;> simp [h]
          simp [h1]
        · rw [should_continue_build, if_neg hp, if_neg hr]
          rw [countCompleted_cons, countCompleted_cons,
            countCompleted_should_continue mr rest]

/-- Updating the first match, when nothing in the prefix matches, rewrites
exactly the isolated story. -/
theorem updateFirst_append (p : StoryState → Bool) (f : StoryState → StoryState) :
    ∀ (us : List StoryState) (s : StoryState) (vs : List StoryState),
      (∀ t ∈ us, p t = false) → p s = true →
      updateFirst p f (us ++ s :: vs) = us ++ f s :: vs
  | [], s, vs, _, hs => by rw [List.nil_append, updateFirst, if_pos hs]; rfl
  | t :: us, s, vs, hus, hs => by
      have ht : p t = false := hus t (List.mem_cons_self ..)
      rw [List.cons_append, updateFirst, if_neg (by simp [ht])]
      rw [updateFirst_append p f us s vs
        (fun u hu => hus u (List.mem_cons_of_mem t hu)) hs]
      rfl

/-- The completed count of freshly loaded stories is the number of story
dicts with a truthy `passes` field. -/
theorem countCompleted_map_from_prd :
    ∀ us : List Dict, countCompleted (us.map from_prd_story) = count_passes us
  | [] => rfl
  | sd :: us => by
      rw [List.map_cons, countCompleted_cons]
      by_cases h : truthy (dget sd "passes" (.bool false)) = true
      · have hst : (from_prd_story sd).status = .completed := by
          rw [from_prd_story]; simp [h]
        rw [hst]
        simp only [if_pos rfl]
        rw [countCompleted_map_from_prd us]
        simp [count_passes, List.filter_cons, h]
        omega
      · have hst : (from_prd_story sd).status = .pending := by
          rw [from_prd_story]; simp [h]
        rw [hst, if_neg (by decide)]
        rw [countCompleted_map_from_prd us]
        simp [count_passes, List.filter_cons, h]

/-- The completed count never exceeds the length. -/
theorem countCompleted_le (l : List StoryState) : countCompleted l ≤ l.length := by
  simpa [countCompleted] using List.length_filter_le
    (fun s => decide (s.status = .completed)) l

/-- Every story is completed exactly when the completed count reaches the
length. -/
theorem countCompleted_eq_length_iff :
    ∀ l : List StoryState,
      (countCompleted l = l.length ↔ ∀ s ∈ l, s.status = .completed)
  | [] => by simp [countCompleted]
  | s :: l => by
      rw [countCompleted_cons, List.length_cons]
      by_cases h : s.status = .completed
      · simp only [if_pos h]
        constructor
        · intro heq t ht
          rcases List.mem_cons.mp ht with rfl | ht
          · exact h
          · exact (countCompleted_eq_length_iff l).1 (by omega) t ht
        · intro hall
          have := (countCompleted_eq_length_iff l).2
            (fun t ht => hall t (List.mem_cons_of_mem s ht))
          omega
      · simp only [if_neg h]
        constructor
        · intro heq
          have hle := countCompleted_le l
          omega
        · intro hall
          exact absurd (hall s (List.mem_cons_self ..)) h

/-- The run-loop invariant holds on entry: the completed counter starts at
the number of already-passed stories, which is exactly the number of
stories loaded as `Completed`. -/
theorem runInv_init (doc : PrdDoc) (q : BuildQueue)
    (hload : load_from_prd doc.userStories = some q)
    (hids : (doc.userStories.map (fun sd => dget sd "id" (.str ""))).Nodup) :
    runInv doc.userStories.length (init_state doc q) := by
  have hq := load_from_prd_eq doc.userStories q hload
  have hperm : q.stories.Perm (doc.userStories.map from_prd_story) := by
    rw [hq]; exact List.perm_insertionSort priorityLE _
  refine ⟨?_, ?_, ?_⟩
  · show count_passes doc.userStories = countCompleted q.stories
    have h1 : countCompleted q.stories
        = countCompleted (doc.userStories.map from_prd_story) := by
      unfold countCompleted
      exact (hperm.filter _).length_eq
    rw [h1, countCompleted_map_from_prd]
  · show (storyIds q.stories).Nodup
    have hmapperm : (storyIds q.stories).Perm
        (storyIds (doc.userStories.map from_prd_story)) := hperm.map _
    have heq : storyIds (doc.userStories.map from_prd_story)
        = doc.userStories.map (fun sd => dget sd "id" (.str "")) := by
      unfold storyIds
      rw [List.map_map]
      rfl
    rw [hmapperm.nodup_iff, heq]
    exact hids
  · show q.stories.length = doc.userStories.length
    rw [hq, List.length_insertionSort, List.length_map]

/-- One loop iteration preserves the run-loop invariant. -/
theorem loopIter_runInv (cfg : RunCfg) (total : Nat) (st : RunState)
    (hinv : runInv total st) : runInv total (stateOfIter (loopIter cfg st)) := by
  obtain ⟨hcomp, hnodup, hlen⟩ := hinv
  rw [loopIter]
  rcases hget : scrum_get_next_story st.queue with ⟨q1, sel⟩
  cases sel with
  | none =>
      obtain ⟨rfl, -⟩ := scrum_get_next_story_none st.queue q1 hget
      exact ⟨hcomp, hnodup, hlen⟩
  | some story =>
      obtain ⟨i, l1, hsel, hq1⟩ := scrum_get_next_story_some st.queue q1 story hget
      subst hq1
      obtain ⟨us, s, vs, hl, hl1, hus, hsp, hs1, -⟩ :=
        select_pending_split st.queue.stories i l1 story hsel
      have hstoryid : story.id = s.id := by rw [hs1]
      have hstoryst : story.status = .in_progress := by rw [hs1]
      have hids1 : storyIds l1 = storyIds st.queue.stories := by
        rw [hl, hl1, hs1]
        simp [storyIds]
      have hnodup1 : (storyIds l1).Nodup := by rw [hids1]; exact hnodup
      have hlen1 : l1.length = total := by
        have h := congrArg List.length hids1
        rw [storyIds, storyIds, List.length_map, List.length_map] at h
        rw [h]
        exact hlen
      have hcount1 : countCompleted l1 = countCompleted st.queue.stories := by
        rw [hl, hl1, hs1]
        rw [countCompleted_append, countCompleted_append,
          countCompleted_cons, countCompleted_cons]
        simp [hsp]
      have hnodup_split : ((us.map (fun t => t.id)) ++
          s.id :: (vs.map (fun t => t.id))).Nodup := by
        have h0 : (storyIds (us ++ s :: vs)).Nodup := by
          rw [← hl]; exact hnodup
        rw [storyIds, List.map_append, List.map_cons] at h0
        exact h0
      have husid : ∀ t ∈ us, (t.id == story.id) = false := by
        intro t ht
        rw [beq_eq_false_iff_ne]
        intro heq
        exact (List.nodup_append.mp hnodup_split).2.2
          (by
            rw [← hstoryid, ← heq]
            simpa using List.mem_map_of_mem (fun t : StoryState => t.id) ht)
          (List.mem_cons_self ..)
      have hmarkc_eq : mark_story_completed story.id l1
          = us ++ ({ story with status := StoryStatus.completed,
                                blockers := [] }) :: vs := by
        rw [hl1]
        unfold mark_story_completed
        exact updateFirst_append _ _ us story vs husid (by simp)
      have hmarkf_eq : ∀ reason, mark_story_failed story.id reason l1
          = us ++ ({ story with
                       status := StoryStatus.failed,
                       failure_reasons := story.failure_reasons ++ [reason] }) :: vs := by
        intro reason
        rw [hl1]
        unfold mark_story_failed
        exact updateFirst_append _ _ us story vs husid (by simp)
      have hcount_markc : countCompleted (mark_story_completed story.id l1)
          = countCompleted l1 + 1 := by
        rw [hmarkc_eq, hl1]
        rw [countCompleted_append, countCompleted_append,
          countCompleted_cons, countCompleted_cons]
        simp [hstoryst]
        omega
      have hcount_markf : ∀ reason,
          countCompleted (mark_story_failed story.id reason l1)
            = countCompleted l1 := by
        intro reason
        rw [hmarkf_eq reason, hl1]
        rw [countCompleted_append, countCompleted_append,
          countCompleted_cons, countCompleted_cons]
        simp [hstoryst]
      have hids_markc : storyIds (mark_story_completed story.id l1)
          = storyIds l1 := by
        unfold mark_story_completed
        exact storyIds_updateFirst (fun s0 => s0.id == story.id)
          (fun s0 => { s0 with status := StoryStatus.completed, blockers := [] })
          (fun s0 => rfl) l1
      have hids_markf : ∀ reason, storyIds (mark_story_failed story.id reason l1)
          = storyIds l1 := by
        intro reason
        unfold mark_story_failed
        exact storyIds_updateFirst (fun s0 => s0.id == story.id)
          (fun s0 => { s0 with status := StoryStatus.failed,
                               failure_reasons := s0.failure_reasons ++ [reason] })
          (fun s0 => rfl) l1
      have hlen_of_ids : ∀ (l2 : List StoryState), storyIds l2 = storyIds l1 →
          l2.length = total := by
        intro l2 h
        have h2 := congrArg List.length h
        rw [storyIds, storyIds, List.length_map, List.length_map] at h2
        rw [h2]
        exact hlen1
      by_cases hskip : story.status = .failed ∧ cfg.mr ≤ story.attempt_count
      · simp only [hskip, and_self, if_pos, stateOfIter]
        exact ⟨hcomp.trans hcount1.symm, hnodup1, hlen1⟩
      · simp only [if_neg hskip]
        cases hfind : find_story_data st.prd.userStories story.id with
        | none =>
            simp only [stateOfIter]
            refine ⟨?_, ?_, ?_⟩
            · rw [hcount_markf "Story not found in PRD", hcount1]
              exact hcomp
            · rw [hids_markf "Story not found in PRD"]
              exact hnodup1
            · exact hlen_of_ids _ (hids_markf "Story not found in PRD")
        | some sd =>
            rcases hrun : run_story_with_retries cfg st.implCtr with ⟨b, ctr1⟩
            cases b with
            | true =>
                by_cases hsave : cfg.saveOk st.saveCtr = true
                · simp only [hsave, if_pos]
                  obtain ⟨hccs, -, hccc, -⟩ := check_continue_state cfg _
                  refine ⟨?_, ?_, ?_⟩
                  · rw [hccs, hccc]
                    simp only []
                    rw [countCompleted_should_continue, hcount_markc, hcount1]
                    rw [hcomp]
                  · rw [hccs]
                    have h := storyIds_should_continue cfg.mr
                      (mark_story_completed story.id l1)
                    rw [h, hids_markc]
                    exact hnodup1
                  · have h := storyIds_should_continue cfg.mr
                      (mark_story_completed story.id l1)
                    have h2 := congrArg List.length (h.trans hids_markc)
                    rw [storyIds, storyIds, List.length_map, List.length_map] at h2
                    rw [hccs, h2]
                    exact hlen1
                · simp only [hsave, Bool.false_eq_true, if_neg, stateOfIter]
                  exact ⟨hcomp.trans hcount1.symm, hnodup1, hlen1⟩
            | false =>
                obtain ⟨hccs, -, hccc, -⟩ := check_continue_state cfg _
                refine ⟨?_, ?_, ?_⟩
                · rw [hccs, hccc]
                  simp only []
                  rw [countCompleted_should_continue, hcount_markf, hcount1]
                  exact hcomp
                · rw [hccs]
                  have h := storyIds_should_continue cfg.mr
                    (mark_story_failed story.id
                      ("Failed after " ++ toString cfg.mr ++ " attempts") l1)
                  rw [h, hids_markf]
                  exact hnodup1
                · have h := storyIds_should_continue cfg.mr
                    (mark_story_failed story.id
                      ("Failed after " ++ toString cfg.mr ++ " attempts") l1)
                  have h2 := congrArg List.length (h.trans (hids_markf _))
                  rw [storyIds, storyIds, List.length_map, List.length_map] at h2
                  rw [hccs, h2]
                  exact hlen1

/-- The whole loop preserves the run-loop invariant. -/
theorem runLoop_runInv (cfg : RunCfg) (total : Nat) :
    ∀ (fuel : Nat) (st : RunState), runInv total st →
      runInv total (stateOfRun (runLoop cfg fuel st)) := by
  intro fuel
  induction fuel with
  | zero => intro st h; exact h
  | succ fuel ih =>
      intro st hinv
      have hstep := loopIter_runInv cfg total st hinv
      rw [runLoop]
      cases hiter : loopIter cfg st with
      | brk st1 =>
          rw [hiter] at hstep
          simpa [stateOfRun, stateOfIter] using hstep
      | exc e st1 =>
          rw [hiter] at hstep
          simpa [stateOfRun, stateOfIter] using hstep
      | next st1 =>
          rw [hiter] at hstep
          simp only [stateOfIter] at hstep
          exact ih st1 hstep

/-- C2 counterexample: with one story whose first selection cycle fails
(three failed attempts) and whose retry cycle succeeds, every item ends the
run `Completed`, yet `success = false` because the earlier failing cycle
left the id in `failed_story_ids`. -/
theorem C2_counterexample_retry_completion_not_success :
    run cfgLateSuccess (.ok docOne) 10
      = .ok (some { success := false, total_stories := 1, completed_stories := 1,
                    failed_stories := 1, failed_story_ids := [.str "a"],
                    errors := ["a: Failed after 3 attempts"] }) ∧
    (stateOfRun (runLoop cfgLateSuccess 10 (init_state docOne qOne))).queue.stories.map
        (fun s => s.status) = [StoryStatus.completed] :=
  ⟨rfl, by decide⟩

/-- C2 (amended): for a run from a valid record with distinct story ids
that exits the loop normally, `success` is true iff no selection cycle ever
failed during the run (`failed_story_ids` stayed empty) and every work item
ended `Completed`; an item that failed an earlier cycle keeps `success`
false even when it ended `Completed` after a retry. -/
theorem C2_success_iff_no_failed_cycles_and_all_completed
    (cfg : RunCfg) (doc : PrdDoc) (q : BuildQueue) (fuel : Nat) (st : RunState)
    (hload : load_from_prd doc.userStories = some q)
    (hids : (doc.userStories.map (fun sd => dget sd "id" (.str ""))).Nodup)
    (hdone : runLoop cfg fuel (init_state doc q) = RunOut.done st) :
    (mk_result doc.userStories.length st).success = true ↔
      (st.failedIds = [] ∧ ∀ s ∈ st.queue.stories, s.status = .completed) := by
  have hinv := runLoop_runInv cfg doc.userStories.length fuel (init_state doc q)
    (runInv_init doc q hload hids)
  rw [hdone] at hinv
  simp only [stateOfRun] at hinv
  obtain ⟨hcomp, -, hlen⟩ := hinv
  have hsucc : (mk_result doc.userStories.length st).success
      = (st.failedIds.length == 0 && st.completed == doc.userStories.length) := rfl
  rw [hsucc, Bool.and_eq_true, beq_iff_eq, beq_iff_eq, List.length_eq_zero]
  constructor
  · rintro ⟨h1, h2⟩
    refine ⟨h1, ?_⟩
    have hc : countCompleted st.queue.stories = st.queue.stories.length := by
      omega
    exact (countCompleted_eq_length_iff st.queue.stories).1 hc
  · rintro ⟨h1, h2⟩
    refine ⟨h1, ?_⟩
    have hc := (countCompleted_eq_length_iff st.queue.stories).2 h2
    omega

/-- C2 witness: the amended iff instantiated on the all-good one-story run,
whose loop ends normally with the story completed. -/
theorem C2_witness :
    (mk_result docOne.userStories.length
        (stateOfRun (runLoop cfgAllGood 10 (init_state docOne qOne)))).success = true ↔
      ((stateOfRun (runLoop cfgAllGood 10 (init_state docOne qOne))).failedIds = [] ∧
       ∀ s ∈ (stateOfRun (runLoop cfgAllGood 10 (init_state docOne qOne))).queue.stories,
         s.status = .completed) :=
  C2_success_iff_no_failed_cycles_and_all_completed cfgAllGood docOne qOne 10
    (stateOfRun (runLoop cfgAllGood 10 (init_state docOne qOne)))
    (by decide) (by decide) (by decide)

end MAT
